import Mathlib

/-!
# Verification of the `tile` 2D grid engine

A shallow embedding of the tile grid engine: geometry primitives
(`Point`, `Rect`), the paged grid (`Grid`, `page`), tile cursors and
mutation (`WriteAt`, `MaskAt`, `MergeAt`, `Move`), the binary codec
(`WriteTo` / `ReadFrom`), the view / observer layer (`Resize`), and the
bucketed priority frontier used by the path-finder.

Machine integers are modelled as `Int` (for the signed 16-bit
coordinates) and `Nat` with explicit `% 2^w` reductions (for the 32-bit
tile words and packed representations).  Go's truncated integer division
and remainder are modelled by `Int.tdiv` / `Int.tmod`.
-/

/-- Go's `int16 / int16` truncates toward zero; `Int.tdiv` matches. -/
def gdiv (a b : Int) : Int := Int.tdiv a b

/-- Go's `int16 % int16` takes the sign of the dividend; `Int.tmod` matches. -/
def gmod (a b : Int) : Int := Int.tmod a b

/-- Conversion `uint32(x)` applied to a signed 16-bit value: two's-complement
reinterpretation, i.e. reduction mod 2^32 to a non-negative residue. -/
def toUint32 (x : Int) : Nat := (x % 4294967296).toNat

/-- Conversion `uint16(x)` applied to a signed 16-bit value. -/
def toUint16 (x : Int) : Nat := (x % 65536).toNat

/-- Conversion `int16(n)` applied to an unsigned word: keep the low 16 bits and
reinterpret as a signed 16-bit value. -/
def toInt16 (n : Nat) : Int :=
  let m := n % 65536
  if m < 32768 then (m : Int) else (m : Int) - 65536

-- ---------------------------------- Point ----------------------------------

/-- `Point` represents a 2D coordinate (signed 16-bit `X`, `Y` in the source). -/
structure Point where
  X : Int
  Y : Int
deriving DecidableEq, Repr

/-- `At` creates a new point at a specified x,y coordinate. -/
def At (x y : Int) : Point := ⟨x, y⟩

/-- `Point.Integer` returns the packed 32-bit representation
`(uint32(X) << 16) | (uint32(Y) & 0xffff)` of a point. -/
def Point.Integer (p : Point) : Nat :=
  ((toUint32 p.X <<< 16) % 4294967296) ||| (toUint32 p.Y &&& 65535)

/-- `unpackPoint` recovers a point from its packed representation:
`At(int16(v>>16), int16(v))`. -/
def unpackPoint (v : Nat) : Point :=
  At (toInt16 (v >>> 16)) (toInt16 v)

/-- `Point.Add` adds two points together. -/
def Point.Add (p p2 : Point) : Point := ⟨p.X + p2.X, p.Y + p2.Y⟩

/-- `Point.Subtract` subtracts the second point from the first. -/
def Point.Subtract (p p2 : Point) : Point := ⟨p.X - p2.X, p.Y - p2.Y⟩

/-- `Point.MultiplyScalar` multiplies the given point by the scalar. -/
def Point.MultiplyScalar (p : Point) (s : Int) : Point := ⟨p.X * s, p.Y * s⟩

/-- `Point.WithinSize` checks containment in the box from (0,0) to the size. -/
def Point.WithinSize (p size : Point) : Bool :=
  0 ≤ p.X && 0 ≤ p.Y && p.X < size.X && p.Y < size.Y

-- ---------------------------------- Rect ----------------------------------

/-- `Rect` represents a rectangle given by its top-left (`Min`, inclusive) and
bottom-right (`Max`, exclusive) corners. -/
structure Rect where
  Min : Point
  Max : Point
deriving DecidableEq, Repr

/-- `NewRect` creates a new rectangle from `left, top, right, bottom`. -/
def NewRect (left top right bottom : Int) : Rect :=
  ⟨At left top, At right bottom⟩

/-- `Rect.Contains` returns whether a point is within the rectangle
(inclusive `Min`, exclusive `Max`). -/
def Rect.Contains (a : Rect) (p : Point) : Bool :=
  a.Min.X ≤ p.X && p.X < a.Max.X && a.Min.Y ≤ p.Y && p.Y < a.Max.Y

/-- `Point.Within` checks if the point is within the bounding box `[nw, se)`. -/
def Point.Within (p nw se : Point) : Bool :=
  Rect.Contains ⟨nw, se⟩ p

/-- `Rect.Intersects` returns whether two rectangles intersect (strict,
open-interval semantics). -/
def Rect.Intersects (a b : Rect) : Bool :=
  b.Min.X < a.Max.X && a.Min.X < b.Max.X && b.Min.Y < a.Max.Y && a.Min.Y < b.Max.Y

/-- `Rect.Size` returns the size (`Max - Min`) of the rectangle. -/
def Rect.Size (a : Rect) : Point :=
  ⟨a.Max.X - a.Min.X, a.Max.Y - a.Min.Y⟩

/-- `Rect.IsZero` returns true for the zero-value rectangle check
(`Min == Max` componentwise). -/
def Rect.IsZero (a : Rect) : Bool :=
  a.Min.X == a.Max.X && a.Min.Y == a.Max.Y

/-- The zero-value rectangle. -/
def zeroRect : Rect := ⟨⟨0, 0⟩, ⟨0, 0⟩⟩

/-- Zero a sub-rectangle whose width or height is zero (the trailing
normalization steps of `Rect.Difference`). -/
def zeroIfFlat (r : Rect) : Rect :=
  if r.Size.X == 0 || r.Size.Y == 0 then zeroRect else r

/-- `Rect.Difference` calculates up to four sub-rectangles of the difference
region; fewer than four distinct regions leaves the rest zero-valued.
Returned as the ordered 4-element list `[result0, result1, result2, result3]`. -/
def Rect.Difference (a b : Rect) : List Rect :=
  if b.Contains a.Min && b.Contains a.Max then
    [zeroRect, zeroRect, zeroRect, zeroRect]
  else if !(a.Intersects b) then
    [a, zeroRect, zeroRect, zeroRect]
  else
    let left := min a.Min.X b.Min.X
    let right := max a.Max.X b.Max.X
    let top := min a.Min.Y b.Min.Y
    let bottom := max a.Max.Y b.Max.Y
    let r0 : Rect := ⟨⟨left, top⟩, ⟨right, max a.Min.Y b.Min.Y⟩⟩
    let r1 : Rect := ⟨⟨left, min a.Max.Y b.Max.Y⟩, ⟨right, bottom⟩⟩
    let r2 : Rect := ⟨⟨left, top⟩, ⟨max a.Min.X b.Min.X, bottom⟩⟩
    let r3 : Rect := ⟨⟨min a.Max.X b.Max.X, top⟩, ⟨right, bottom⟩⟩
    [zeroIfFlat r0, zeroIfFlat r1, zeroIfFlat r2, zeroIfFlat r3]

-- ------------------------- Point packing (claim C7) -------------------------

lemma lor_mul_pow_add {A B : Nat} (h : B < 2 ^ 16) :
    (A * 2 ^ 16) ||| B = A * 2 ^ 16 + B := by
  rw [← Nat.shiftLeft_eq]
  apply Nat.eq_of_testBit_eq
  intro k
  have hrhs : (A * 2 ^ 16 + B).testBit k =
      if k < 16 then B.testBit k else A.testBit (k - 16) := by
    rw [Nat.mul_comm, Nat.testBit_mul_pow_two_add _ h]
  rw [Nat.testBit_lor, Nat.testBit_shiftLeft, Nat.shiftLeft_eq, hrhs]
  rcases Nat.lt_or_ge k 16 with hk | hk
  · have hb : ¬ (16 ≤ k) := by omega
    simp [hk, hb]
  · have hbf : B.testBit k = false :=
      Nat.testBit_lt_two_pow (lt_of_lt_of_le h (Nat.pow_le_pow_right (by norm_num) hk))
    simp [hk, Nat.not_lt.mpr hk, hbf]

lemma Point.Integer_eq (p : Point) :
    p.Integer = (toUint32 p.X % 65536) * 65536 + toUint32 p.Y % 65536 := by
  have e16 : (65536 : Nat) = 2 ^ 16 := by norm_num
  have h1 : (toUint32 p.X <<< 16) % 4294967296 = (toUint32 p.X % 65536) * 65536 := by
    rw [Nat.shiftLeft_eq]
    have : (4294967296 : Nat) = 65536 * 65536 := by norm_num
    rw [this, e16]
    have := Nat.mul_mod_mul_right 65536 (toUint32 p.X) 65536
    rw [e16] at this
    exact this
  have h2 : toUint32 p.Y &&& 65535 = toUint32 p.Y % 65536 := by
    have : (65535 : Nat) = 2 ^ 16 - 1 := by norm_num
    rw [this, Nat.and_pow_two_sub_one_eq_mod, e16]
  unfold Point.Integer
  rw [h1, h2, e16]
  exact lor_mul_pow_add (e16 ▸ Nat.mod_lt _ (by norm_num))

/-- C7: for every point with signed 16-bit coordinates, unpacking the packed
32-bit representation recovers the point exactly (`unpackPoint (p.Integer) = p`). -/
theorem c7_point_pack_lossless (x y : Int)
    (hx1 : -32768 ≤ x) (hx2 : x < 32768) (hy1 : -32768 ≤ y) (hy2 : y < 32768) :
    unpackPoint (Point.Integer (At x y)) = At x y := by
  have hpack := Point.Integer_eq (At x y)
  have hux : toUint32 (At x y).X % 65536 = (x % 65536).toNat := by
    show toUint32 x % 65536 = (x % 65536).toNat
    unfold toUint32
    omega
  have huy : toUint32 (At x y).Y % 65536 = (y % 65536).toNat := by
    show toUint32 y % 65536 = (y % 65536).toNat
    unfold toUint32
    omega
  rw [hux, huy] at hpack
  set A := (x % 65536).toNat with hA
  set B := (y % 65536).toNat with hB
  have hAlt : A < 65536 := by omega
  have hBlt : B < 65536 := by omega
  show At (toInt16 ((At x y).Integer >>> 16)) (toInt16 ((At x y).Integer)) = At x y
  rw [hpack]
  have hshift : (A * 65536 + B) >>> 16 = A := by
    have h1 : (A * 65536 + B) >>> 16 = (A * 65536 + B) / 2 ^ 16 :=
      Nat.shiftRight_eq_div_pow _ 16
    have h2 : (2 : Nat) ^ 16 = 65536 := by norm_num
    rw [h1, h2]
    omega
  rw [hshift]
  simp only [toInt16, At, Point.mk.injEq]
  constructor
  · split <;> omega
  · split <;> omega

/-- Witness for C7 at the spec's S1 inputs: `At(-5,5).Integer() = 0xFFFB0005`,
`unpack(0xFFFB0005) = (-5,5)`, and `At(10,20).Integer() = 0x000A0014`. -/
theorem c7_point_pack_lossless_witness :
    (At (-5) 5).Integer = 0xFFFB0005 ∧ unpackPoint 0xFFFB0005 = At (-5) 5 ∧
    (At 10 20).Integer = 0x000A0014 ∧ unpackPoint ((At (-5) 5).Integer) = At (-5) 5 :=
  ⟨by decide, by decide, by decide,
   c7_point_pack_lossless (-5) 5 (by decide) (by decide) (by decide) (by decide)⟩

-- ---------------------- Rectangle difference (claim C3) ----------------------

@[simp] lemma Rect.contains_iff (a : Rect) (p : Point) :
    (a.Contains p = true) ↔
      (a.Min.X ≤ p.X ∧ p.X < a.Max.X ∧ a.Min.Y ≤ p.Y ∧ p.Y < a.Max.Y) := by
  simp [Rect.Contains, and_assoc]

@[simp] lemma Rect.intersects_iff (a b : Rect) :
    (a.Intersects b = true) ↔
      (b.Min.X < a.Max.X ∧ a.Min.X < b.Max.X ∧ b.Min.Y < a.Max.Y ∧ a.Min.Y < b.Max.Y) := by
  simp [Rect.Intersects, and_assoc]

@[simp] lemma Rect.isZero_iff (a : Rect) :
    (a.IsZero = true) ↔ (a.Min.X = a.Max.X ∧ a.Min.Y = a.Max.Y) := by
  simp [Rect.IsZero]

lemma zeroIfFlat_sem (r : Rect) (p : Point) :
    ((zeroIfFlat r).IsZero = false ∧ (zeroIfFlat r).Contains p = true) ↔
      r.Contains p = true := by
  unfold zeroIfFlat zeroRect
  split
  · next h =>
    simp only [Rect.Size] at h
    simp only [Bool.or_eq_true, beq_iff_eq] at h
    constructor
    · rintro ⟨h1, h2⟩
      simp at h2
      omega
    · intro hc
      exfalso
      simp only [Rect.contains_iff] at hc
      omega
  · next h =>
    simp only [Rect.Size] at h
    simp only [Bool.or_eq_true, beq_iff_eq] at h
    push_neg at h
    constructor
    · rintro ⟨_, h2⟩
      exact h2
    · intro hc
      refine ⟨?_, hc⟩
      simp only [Rect.isZero_iff, Bool.not_eq_true] at *
      simp only [Bool.eq_false_iff]
      intro hz
      rw [Rect.isZero_iff] at hz
      omega

/-- The bounding box of two rectangles (smallest rectangle covering both). -/
def boundingBox (a b : Rect) : Rect :=
  ⟨⟨min a.Min.X b.Min.X, min a.Min.Y b.Min.Y⟩,
   ⟨max a.Max.X b.Max.X, max a.Max.Y b.Max.Y⟩⟩

/-- C3 counterexample: for `a = [0,3)×[0,3)` and `b = [1,4)×[1,4)`,
`a.Difference(b)` returns non-zero sub-rectangles `result0` and `result2`
that overlap (both contain `(0,0)`), and `result0` contains `(3,0)` which lies
outside `a` — so the returned sub-rectangles are neither pairwise
non-overlapping nor a partition of `a \ b`. -/
theorem c3_difference_counterexample :
    ((Rect.Difference ⟨⟨0, 0⟩, ⟨3, 3⟩⟩ ⟨⟨1, 1⟩, ⟨4, 4⟩⟩).getD 0 zeroRect).IsZero = false ∧
    ((Rect.Difference ⟨⟨0, 0⟩, ⟨3, 3⟩⟩ ⟨⟨1, 1⟩, ⟨4, 4⟩⟩).getD 2 zeroRect).IsZero = false ∧
    ((Rect.Difference ⟨⟨0, 0⟩, ⟨3, 3⟩⟩ ⟨⟨1, 1⟩, ⟨4, 4⟩⟩).getD 0 zeroRect).Contains ⟨0, 0⟩ = true ∧
    ((Rect.Difference ⟨⟨0, 0⟩, ⟨3, 3⟩⟩ ⟨⟨1, 1⟩, ⟨4, 4⟩⟩).getD 2 zeroRect).Contains ⟨0, 0⟩ = true ∧
    ((Rect.Difference ⟨⟨0, 0⟩, ⟨3, 3⟩⟩ ⟨⟨1, 1⟩, ⟨4, 4⟩⟩).getD 0 zeroRect).Contains ⟨3, 0⟩ = true ∧
    (Rect.Contains ⟨⟨0, 0⟩, ⟨3, 3⟩⟩ ⟨3, 0⟩ = false) := by
  decide

/-- C3 amended: the non-zero sub-rectangles returned by `a.Difference(b)` may
overlap pairwise, and their union as a point set is: empty when `b` contains
both corners of `a`; exactly `a` when `a` and `b` do not intersect; and
otherwise the bounding box of `a` and `b` minus the intersection `a ∩ b`
(a superset of `a \ b` that can also include points of `b \ a`). -/
theorem c3_difference_union_characterization (a b : Rect) (p : Point) :
    (∃ r ∈ a.Difference b, r.IsZero = false ∧ r.Contains p = true) ↔
      (if b.Contains a.Min && b.Contains a.Max then False
       else if a.Intersects b then
         ((boundingBox a b).Contains p = true ∧
           ¬(a.Contains p = true ∧ b.Contains p = true))
       else a.Contains p = true) := by
  unfold Rect.Difference
  by_cases h : (b.Contains a.Min && b.Contains a.Max) = true
  · rw [if_pos h, if_pos h]
    simp [zeroRect, Rect.IsZero]
  · rw [if_neg h, if_neg h]
    by_cases h2 : a.Intersects b = true
    case neg =>
      have h2' : a.Intersects b = false := by
        revert h2
        cases a.Intersects b <;> simp
      rw [if_neg h2, if_pos (by simp [h2'] : (!a.Intersects b) = true)]
      simp only [List.mem_cons, List.not_mem_nil, or_false, exists_eq_or_imp,
        exists_eq_left]
      constructor
      · rintro (⟨_, hc⟩ | hz | hz | hz)
        · exact hc
        all_goals (exfalso; rcases hz with ⟨hz1, hz2⟩; simp [zeroRect, Rect.IsZero] at hz1)
      · intro hc
        left
        refine ⟨?_, hc⟩
        simp only [Rect.contains_iff] at hc
        simp only [Bool.eq_false_iff]
        intro hz
        rw [Rect.isZero_iff] at hz
        omega
    case pos =>
      rw [if_pos h2, if_neg (by simp [h2] : ¬((!a.Intersects b) = true))]
      dsimp only
      simp only [List.mem_cons, List.not_mem_nil, or_false, exists_eq_or_imp,
        exists_eq_left, zeroIfFlat_sem]
      simp only [Rect.contains_iff, Rect.intersects_iff, boundingBox] at h2 ⊢
      omega

-- -------------------- Bucketed priority Frontier (claim C8) --------------------

/-- Trailing-zero scan helper: first index `≥ i` (among the next `fuel`
indices) whose bit is set in `m`, or `i + fuel` when none is. -/
def tzAux (m : Nat) : Nat → Nat → Nat
  | i, 0 => i
  | i, fuel+1 => if m.testBit i then i else tzAux m (i+1) fuel

/-- `bits.TrailingZeros64`: index of the lowest set bit of a 64-bit word,
or 64 when the word is zero. -/
def tz64 (m : Nat) : Nat := tzAux m 0 64

/-- Go's `a &^ b` on 64-bit words (AND NOT). -/
def andNot64 (a b : Nat) : Nat := a &&& (18446744073709551615 ^^^ b)

/-- `Frontier` is a bucket-based priority queue: 64 LIFO buckets of 32-bit
values plus a 64-bit occupancy mask. The fixed-size bucket array is modelled
as a function from bucket index to its stack. -/
structure Frontier where
  buckets : Nat → List Nat
  mask : Nat

/-- `newFrontier` creates an empty Frontier. -/
def newFrontier : Frontier := ⟨fun _ => [], 0⟩

/-- `Frontier.IsEmpty` tests the occupancy mask. -/
def Frontier.IsEmpty (q : Frontier) : Bool := q.mask == 0

/-- `Frontier.Push`: append `value` to bucket `priority & 63` and set the
corresponding mask bit. -/
def Frontier.Push (q : Frontier) (value priority : Nat) : Frontier :=
  let i := priority &&& 63
  { buckets := fun j => if j = i then q.buckets i ++ [value] else q.buckets j,
    mask := q.mask ||| (1 <<< i) }

/-- `Frontier.Pop`: take the last value of the lowest non-empty bucket and
clear its mask bit if the bucket drains; an empty queue returns `0`.
`none` models the out-of-bounds slice access Go would perform if the mask
pointed at an empty bucket (impossible while the mask invariant holds). -/
def Frontier.Pop (q : Frontier) : Option (Nat × Frontier) :=
  let i := tz64 q.mask
  if i < 64 then
    match (q.buckets i).getLast? with
    | none => none
    | some e =>
      let b := (q.buckets i).dropLast
      some (e, { buckets := fun j => if j = i then b else q.buckets j,
                 mask := if b = [] then andNot64 q.mask (1 <<< i) else q.mask })
  else
    some (0, q)

/-- Apply a sequence of `Push(value, priority)` operations in order. -/
def pushAll (ops : List (Nat × Nat)) (q : Frontier) : Frontier :=
  ops.foldl (fun acc op => acc.Push op.1 op.2) q

/-- The values stored in the Frontier, lowest bucket first, each bucket
read in pop (LIFO) order. -/
def concatBuckets (q : Frontier) : List Nat :=
  (List.range 64).flatMap fun i => (q.buckets i).reverse

/-- Total number of stored values. -/
def Frontier.size (q : Frontier) : Nat := (concatBuckets q).length

/-- Pop values until `IsEmpty`, with explicit fuel; `none` when the queue
faults or the fuel runs out before the queue empties. -/
def popUntilEmpty : Nat → Frontier → Option (List Nat)
  | 0, q => if q.IsEmpty then some [] else none
  | fuel+1, q =>
    if q.IsEmpty then some []
    else
      match q.Pop with
      | none => none
      | some (e, q') => (popUntilEmpty fuel q').map (e :: ·)

/-- The mask invariant: a mask bit is set exactly for the non-empty buckets
(and only bucket indices below 64 are ever occupied). -/
def maskInv (q : Frontier) : Prop :=
  ∀ j, q.mask.testBit j ↔ (j < 64 ∧ q.buckets j ≠ [])

lemma flatMap_nil_of {α β : Type} {l : List α} {f : α → List β} (h : ∀ x ∈ l, f x = []) :
    l.flatMap f = [] := by
  induction l with
  | nil => rfl
  | cons a t ih =>
    rw [List.flatMap_cons, h a (by simp), List.nil_append]
    exact ih fun x hx => h x (by simp [hx])

lemma flatMap_congr_of {α β : Type} {l : List α} {f g : α → List β}
    (h : ∀ x ∈ l, f x = g x) : l.flatMap f = l.flatMap g := by
  induction l with
  | nil => rfl
  | cons a t ih =>
    rw [List.flatMap_cons, List.flatMap_cons, h a (by simp)]
    rw [ih fun x hx => h x (by simp [hx])]

lemma and63_lt (pr : Nat) : pr &&& 63 < 64 := by
  have h : (63 : Nat) = 2 ^ 6 - 1 := by norm_num
  rw [h, Nat.and_pow_two_sub_one_eq_mod]
  exact Nat.mod_lt _ (by norm_num)

lemma tzAux_found (m : Nat) :
    ∀ fuel i j, m.testBit j = true → i ≤ j → j < i + fuel →
      (∀ k, i ≤ k → k < j → m.testBit k = false) → tzAux m i fuel = j := by
  intro fuel
  induction fuel with
  | zero =>
    intro i j _ h2 h3 _
    omega
  | succ n ih =>
    intro i j hj hij hlt hmin
    unfold tzAux
    by_cases hi : m.testBit i
    · rw [if_pos hi]
      by_contra hne
      have hij' : i < j := lt_of_le_of_ne hij hne
      rw [hmin i (le_refl i) hij'] at hi
      exact Bool.false_ne_true hi
    · rw [if_neg hi]
      have hne : i ≠ j := fun h => hi (h ▸ hj)
      exact ih (i+1) j hj (by omega) (by omega) fun k hk1 hk2 => hmin k (by omega) hk2

lemma exists_testBit_of_ne_zero {m : Nat} (h : m ≠ 0) : ∃ j, m.testBit j = true := by
  by_contra hc
  push_neg at hc
  refine h (Nat.eq_of_testBit_eq fun i => ?_)
  rw [Nat.zero_testBit]
  simpa using hc i

lemma range64_flatMap_split {f : Nat → List Nat} {i0 : Nat} (hi : i0 < 64)
    (hlow : ∀ j < i0, f j = []) :
    (List.range 64).flatMap f = f i0 ++ (List.range' (i0+1) (63 - i0)).flatMap f := by
  rw [List.range_eq_range']
  have hsplit : List.range' 0 64 = List.range' 0 i0 ++ List.range' i0 (64 - i0) := by
    have h := List.range'_append 0 i0 (64 - i0) 1
    simp only [Nat.one_mul, Nat.zero_add] at h
    rw [h]
    congr 1
    omega
  have hcons : List.range' i0 (64 - i0) = i0 :: List.range' (i0+1) (63 - i0) := by
    have h64 : 64 - i0 = (63 - i0) + 1 := by omega
    rw [h64]
    simp [List.range']
  rw [hsplit, hcons, List.flatMap_append, List.flatMap_cons]
  rw [flatMap_nil_of fun x hx => hlow x (by
    have := List.mem_range'_1.mp hx
    omega)]
  rfl

lemma maskInv_push {q : Frontier} (hq : maskInv q) (v pr : Nat) :
    maskInv (q.Push v pr) := by
  intro j
  unfold Frontier.Push
  simp only [Nat.testBit_lor, Nat.one_shiftLeft]
  by_cases hij : j = pr &&& 63
  · subst hij
    constructor
    · intro _
      refine ⟨and63_lt pr, ?_⟩
      rw [if_pos rfl]
      simp
    · intro _
      rw [Nat.testBit_two_pow_self]
      simp
  · rw [Nat.testBit_two_pow_of_ne fun h => hij h.symm]
    simp only [Bool.or_false, if_neg hij]
    exact hq j

lemma maskInv_pushAll (ops : List (Nat × Nat)) :
    ∀ q, maskInv q → maskInv (pushAll ops q) := by
  induction ops with
  | nil => intro q hq; exact hq
  | cons op t ih =>
    intro q hq
    exact ih _ (maskInv_push hq op.1 op.2)

lemma pushAll_buckets (ops : List (Nat × Nat)) :
    ∀ q i, (pushAll ops q).buckets i =
      q.buckets i ++ ((ops.filter fun op => op.2 &&& 63 == i).map Prod.fst) := by
  induction ops with
  | nil => intro q i; simp [pushAll]
  | cons op t ih =>
    intro q i
    show (pushAll t (q.Push op.1 op.2)).buckets i = _
    rw [ih]
    unfold Frontier.Push
    simp only [List.filter_cons]
    by_cases hio : (op.2 &&& 63) = i
    · subst hio
      simp [List.append_assoc]
    · rw [if_neg fun h => hio h.symm,
        if_neg (by simp [hio] : ¬((op.2 &&& 63 == i) = true))]

lemma maskInv_mask_zero {q : Frontier} (hq : maskInv q) (h0 : q.mask = 0) :
    ∀ j < 64, q.buckets j = [] := by
  intro j hj
  by_contra hne
  have := (hq j).mpr ⟨hj, hne⟩
  rw [h0, Nat.zero_testBit] at this
  exact Bool.false_ne_true this

lemma concatBuckets_nil {q : Frontier} (h : ∀ j < 64, q.buckets j = []) :
    concatBuckets q = [] := by
  unfold concatBuckets
  exact flatMap_nil_of fun x hx => by
    rw [h x (List.mem_range.mp hx)]
    rfl

lemma popUntilEmpty_spec (fuel : Nat) :
    ∀ q, maskInv q → q.size ≤ fuel →
      popUntilEmpty fuel q = some (concatBuckets q) := by
  induction fuel with
  | zero =>
    intro q hq hsz
    have h0 : q.mask = 0 := by
      by_contra hne
      obtain ⟨j, hj⟩ := exists_testBit_of_ne_zero hne
      obtain ⟨hj64, hjne⟩ := (hq j).mp hj
      obtain ⟨x, hx⟩ := List.exists_mem_of_ne_nil _ hjne
      have hxc : x ∈ concatBuckets q :=
        List.mem_flatMap.mpr ⟨j, List.mem_range.mpr hj64, by simpa using hx⟩
      have hpos : 0 < q.size := by
        unfold Frontier.size
        exact List.length_pos_of_mem hxc
      omega
    unfold popUntilEmpty Frontier.IsEmpty
    rw [h0]
    simp [(concatBuckets_nil (maskInv_mask_zero hq h0)).symm]
  | succ n ih =>
    intro q hq hsz
    by_cases h0 : q.mask = 0
    · unfold popUntilEmpty Frontier.IsEmpty
      rw [h0]
      simp [(concatBuckets_nil (maskInv_mask_zero hq h0)).symm]
    · -- locate the lowest set bit
      obtain ⟨j1, hj1⟩ := exists_testBit_of_ne_zero h0
      have hfind : ∃ j, q.mask.testBit j = true := ⟨j1, hj1⟩
      classical
      set i0 := Nat.find hfind with hi0def
      have hbit : q.mask.testBit i0 = true := Nat.find_spec hfind
      have hmin : ∀ k < i0, q.mask.testBit k = false := by
        intro k hk
        have := Nat.find_min hfind hk
        revert this
        cases q.mask.testBit k <;> simp
      obtain ⟨hi64, hbne⟩ := (hq i0).mp hbit
      have htz : tz64 q.mask = i0 :=
        tzAux_found q.mask 64 0 i0 hbit (Nat.zero_le _) (by omega)
          fun k _ hk => hmin k hk
      rcases List.eq_nil_or_concat (q.buckets i0) with hnil | ⟨db, e, hb⟩
      · exact absurd hnil hbne
      · -- one pop step
        have hlow : ∀ j < i0, (fun i => (q.buckets i).reverse) j = [] := by
          intro j hj
          have hjb : q.buckets j = [] := by
            by_contra hne2
            by_cases hj64 : j < 64
            · have := (hq j).mpr ⟨hj64, hne2⟩
              rw [hmin j hj] at this
              exact Bool.false_ne_true this
            · have := (hq j).mp
              omega
          simp [hjb]
        set q' : Frontier :=
          { buckets := fun j => if j = i0 then db else q.buckets j,
            mask := if db = [] then andNot64 q.mask (1 <<< i0) else q.mask }
          with hqdefn
        have hInv' : maskInv q' := by
          intro j
          rw [hqdefn]
          simp only []
          by_cases hdb : db = []
          · rw [if_pos hdb]
            unfold andNot64
            rw [show (18446744073709551615 : Nat) = 2 ^ 64 - 1 from by norm_num]
            rw [Nat.testBit_and, Nat.testBit_xor, Nat.one_shiftLeft,
              Nat.testBit_two_pow_sub_one]
            by_cases hji : j = i0
            · subst hji
              rw [Nat.testBit_two_pow_self, if_pos rfl, hbit]
              simp [hdb, hi64]
            · rw [Nat.testBit_two_pow_of_ne fun h => hji h.symm, if_neg hji, ← hq j]
              cases hmb : q.mask.testBit j with
              | false => simp
              | true =>
                have hj64 : j < 64 := ((hq j).mp hmb).1
                simp [hj64]
          · rw [if_neg hdb]
            by_cases hji : j = i0
            · subst hji
              rw [if_pos rfl, hbit]
              simp [hi64, hdb]
            · rw [if_neg hji]
              exact hq j
        have hsplit : concatBuckets q =
            (q.buckets i0).reverse ++
              (List.range' (i0+1) (63 - i0)).flatMap fun i => (q.buckets i).reverse :=
          range64_flatMap_split hi64 hlow
        have hsplit' : concatBuckets q' =
            db.reverse ++
              (List.range' (i0+1) (63 - i0)).flatMap fun i => (q.buckets i).reverse := by
          have h1 : concatBuckets q' =
              (q'.buckets i0).reverse ++
                (List.range' (i0+1) (63 - i0)).flatMap fun i => (q'.buckets i).reverse :=
            range64_flatMap_split hi64 (by
              intro j hj
              rw [hqdefn]
              dsimp only
              rw [if_neg (by omega)]
              exact hlow j hj)
          rw [h1, hqdefn]
          dsimp only
          rw [if_pos rfl]
          congr 1
          refine flatMap_congr_of fun x hx => ?_
          have := List.mem_range'_1.mp hx
          rw [if_neg (by omega)]
        have hrev : (q.buckets i0).reverse = e :: db.reverse := by
          rw [hb]
          simp
        have hsz' : q'.size ≤ n := by
          have h1 : q.size = (q.buckets i0).reverse.length +
              ((List.range' (i0+1) (63 - i0)).flatMap fun i =>
                (q.buckets i).reverse).length := by
            unfold Frontier.size
            rw [hsplit, List.length_append]
          have h2 : q'.size = db.reverse.length +
              ((List.range' (i0+1) (63 - i0)).flatMap fun i =>
                (q.buckets i).reverse).length := by
            unfold Frontier.size
            rw [hsplit', List.length_append]
          rw [hrev] at h1
          simp only [List.length_cons] at h1
          omega
        have hpop : q.Pop = some (e, q') := by
          unfold Frontier.Pop
          rw [htz, if_pos hi64, hb, List.concat_eq_append]
          rw [List.getLast?_concat]
          simp only [List.dropLast_concat]
        have hne : q.IsEmpty = false := by
          unfold Frontier.IsEmpty
          simp [h0]
        unfold popUntilEmpty
        rw [hne]
        simp only [Bool.false_eq_true, if_false]
        rw [hpop]
        dsimp only
        rw [ih q' hInv' hsz']
        rw [hsplit, hsplit', hrev]
        rfl

/-- C8: for every sequence of `Push(value, priority)` operations on a fresh
bucketed frontier, popping until `IsEmpty` yields exactly the pushed values
grouped by bucket `priority & 63` in increasing bucket order (non-decreasing
`priority & 63`), and within each bucket in reverse push order (LIFO). -/
theorem c8_frontier_pop_order (ops : List (Nat × Nat)) :
    popUntilEmpty (pushAll ops newFrontier).size (pushAll ops newFrontier) =
      some ((List.range 64).flatMap fun i =>
        ((ops.filter fun op => op.2 &&& 63 == i).map Prod.fst).reverse) := by
  have hInv : maskInv (pushAll ops newFrontier) :=
    maskInv_pushAll ops newFrontier (by
      intro j
      simp [newFrontier, Nat.zero_testBit])
  rw [popUntilEmpty_spec _ _ hInv (le_refl _)]
  congr 1
  unfold concatBuckets
  refine flatMap_congr_of fun i _ => ?_
  rw [pushAll_buckets]
  simp [newFrontier]

-- ---------------------------------- Grid ----------------------------------

/-- `Value` represents a packed tile word (`uint32`), kept in `Nat` with
explicit mod-2^32 reductions where the code wraps. -/
abbrev Value := Nat

/-- Go's `a &^ b` on 32-bit words (AND NOT). -/
def andNot32 (a b : Nat) : Nat := a &&& (4294967295 ^^^ b)

/-- `page` represents a 3x3 tile page: the per-page entity state map, the
atomic flags word (bit 0 = observed), the page origin and nine tile words. -/
structure page where
  state : List (String × Nat)
  flags : Nat
  point : Point
  tiles : List Value
deriving DecidableEq, Repr

/-- The zero-value page (used as lookup default only). -/
def emptyPage : page := ⟨[], 0, ⟨0, 0⟩, List.replicate 9 0⟩

/-- `page.tileAt` reads a tile word at a page index. -/
def page.tileAt (p : page) (idx : Nat) : Value := p.tiles.getD idx 0

/-- `page.IsObserved` returns whether the page is observed (flags bit 0). -/
def page.IsObserved (p : page) : Bool := p.flags &&& 1 != 0

/-- `page.Bounds` returns the 3x3 bounding box of the page. -/
def page.Bounds (p : page) : Rect :=
  ⟨p.point, At (p.point.X + 3) (p.point.Y + 3)⟩

/-- `page.SetObserved` sets or clears the observed flag (bit 0). -/
def page.SetObserved (p : page) (observed : Bool) : page :=
  { p with flags := if observed then p.flags ||| 1 else andNot32 p.flags 1 }

/-- `pointOf` returns the world point of intra-page index `idx` (0..8). -/
def pointOf (pagePoint : Point) (idx : Nat) : Point :=
  ⟨pagePoint.X + ((idx % 3 : Nat) : Int), pagePoint.Y + ((idx / 3 : Nat) : Int)⟩

/-- `Grid` represents a 2D tile map composed of 3x3 pages (observer registry
modelled separately with the view layer). -/
structure Grid where
  pages : List page
  pageWidth : Int
  pageHeight : Int
  Size : Point
deriving DecidableEq, Repr

/-- `NewGridOf` returns a new map of the specified size; width and height are
divided by three (truncated) to obtain the page grid. -/
def NewGridOf (width height : Int) : Grid :=
  let w := gdiv width 3
  let h := gdiv height 3
  let mx := w * h
  { pages := (List.range mx.toNat).map fun i =>
      { state := []
        flags := 0
        point := (At ((i % w.toNat : Nat) : Int) ((i / w.toNat : Nat) : Int)).MultiplyScalar 3
        tiles := List.replicate 9 0 }
    pageWidth := w
    pageHeight := h
    Size := At (w * 3) (h * 3) }

/-- `NewGrid` is `NewGridOf` at the string entity type. -/
def NewGrid (width height : Int) : Grid := NewGridOf width height

/-- `Grid.pageAt` loads a page (by index) at a page coordinate; `none` models
the `nil` pointer returned on a row-major index outside the page array. -/
def Grid.pageAt (m : Grid) (x y : Int) : Option Nat :=
  let index := x + m.pageWidth * y
  if 0 ≤ index ∧ index < (m.pages.length : Int) then some index.toNat else none

/-- A tile cursor: the page pointer (`none` = nil) plus intra-page index. -/
structure Tile where
  data : Option Nat
  idx : Nat
deriving DecidableEq, Repr

/-- `Grid.At` returns the cursor at a position together with an in-bounds
flag; out of bounds yields the zero-value cursor and `false`. -/
def Grid.At (m : Grid) (x y : Int) : Tile × Bool :=
  if 0 ≤ x ∧ 0 ≤ y ∧ x < m.Size.X ∧ y < m.Size.Y then
    (⟨m.pageAt (gdiv x 3) (gdiv y 3), (gmod y 3 * 3 + gmod x 3).toNat⟩, true)
  else
    (⟨none, 0⟩, false)

/-- Replace the page at index `pi` using `f`. -/
def Grid.updatePage (m : Grid) (pi : Nat) (f : page → page) : Grid :=
  { m with pages := m.pages.set pi (f (m.pages.getD pi emptyPage)) }

/-- `ValueAt` represents a tile location and its value. -/
structure ValueAt where
  pt : Point
  val : Value
deriving DecidableEq, Repr

/-- `Update` represents a tile update notification (`Add`/`Del` carry the
entity, `""` standing for Go's zero value of the string type parameter). -/
structure Update where
  Old : ValueAt
  New : ValueAt
  Add : String
  Del : String
deriving DecidableEq, Repr

/-- `page.writeTile` stores a tile word (the CAS loop of the source resolves
in one step without concurrent writers) and returns the notification that is
dispatched when the page is observed. -/
def writeTileG (m : Grid) (pi : Nat) (idx : Nat) (after : Value) :
    Grid × Option Update :=
  let pg := m.pages.getD pi emptyPage
  let before := pg.tileAt idx
  let m' := m.updatePage pi fun p => { p with tiles := p.tiles.set idx after }
  let upd := if pg.IsObserved then
      some { Old := ⟨pointOf pg.point idx, before⟩
             New := ⟨pointOf pg.point idx, after⟩
             Add := "", Del := "" }
    else none
  (m', upd)

/-- `page.mergeTile` applies the merge function to the tile word (single CAS
round) and returns the merged value plus the notification. -/
def mergeTileG (m : Grid) (pi : Nat) (idx : Nat) (fn : Value → Value) :
    Grid × Value × Option Update :=
  let pg := m.pages.getD pi emptyPage
  let before := pg.tileAt idx
  let after := fn before
  let m' := m.updatePage pi fun p => { p with tiles := p.tiles.set idx after }
  let upd := if pg.IsObserved then
      some { Old := ⟨pointOf pg.point idx, before⟩
             New := ⟨pointOf pg.point idx, after⟩
             Add := "", Del := "" }
    else none
  (m', after, upd)

/-- `Grid.WriteAt` updates the entire tile value at a coordinate; a silent
no-op out of bounds. -/
def Grid.WriteAt (m : Grid) (x y : Int) (tile : Value) : Grid :=
  if 0 ≤ x ∧ 0 ≤ y ∧ x < m.Size.X ∧ y < m.Size.Y then
    match m.pageAt (gdiv x 3) (gdiv y 3) with
    | some pi => (writeTileG m pi (gmod y 3 * 3 + gmod x 3).toNat tile).1
    | none => m
  else m

/-- `Grid.MergeAt` merges the tile at a coordinate via `merge`; a silent
no-op out of bounds. -/
def Grid.MergeAt (m : Grid) (x y : Int) (merge : Value → Value) : Grid :=
  if 0 ≤ x ∧ 0 ≤ y ∧ x < m.Size.X ∧ y < m.Size.Y then
    match m.pageAt (gdiv x 3) (gdiv y 3) with
    | some pi => (mergeTileG m pi (gmod y 3 * 3 + gmod x 3).toNat merge).1
    | none => m
  else m

/-- `Grid.MaskAt` atomically updates the masked bits of the tile word at a
coordinate: `MergeAt` with `(value &^ mask) | (tile & mask)`. -/
def Grid.MaskAt (m : Grid) (x y : Int) (tile mask : Value) : Grid :=
  m.MergeAt x y fun value => andNot32 value mask ||| (tile &&& mask)

/-- Read a cursor's tile word (`Tile.Value`); `none` models the nil-pointer
dereference on a zero cursor. -/
def Tile.ValueOf (m : Grid) (t : Tile) : Option Value :=
  match t.data with
  | some pi => some ((m.pages.getD pi emptyPage).tileAt t.idx)
  | none => none

/-- Well-formedness of a grid as established by `NewGridOf`: positive page
counts, consistent size, the row-major page layout with its origin points,
nine 32-bit tile words per page. -/
def Grid.WF (m : Grid) : Prop :=
  0 < m.pageWidth ∧ 0 < m.pageHeight ∧
  m.Size = (⟨m.pageWidth * 3, m.pageHeight * 3⟩ : Point) ∧
  (m.pages.length : Int) = m.pageWidth * m.pageHeight ∧
  (∀ i, i < m.pages.length →
    (m.pages.getD i emptyPage).point =
      (⟨((i % m.pageWidth.toNat : Nat) : Int) * 3,
        ((i / m.pageWidth.toNat : Nat) : Int) * 3⟩ : Point)) ∧
  (∀ pg ∈ m.pages, pg.tiles.length = 9) ∧
  (∀ pg ∈ m.pages, ∀ v ∈ pg.tiles, v < 4294967296)

instance (m : Grid) : Decidable m.WF := by
  unfold Grid.WF
  infer_instance

lemma getD_set_eq_of_lt {α : Type} (l : List α) (i : Nat) (a d : α)
    (h : i < l.length) : (l.set i a).getD i d = a := by
  rw [List.getD_eq_getElem?_getD, List.getElem?_set_self', List.getElem?_eq_getElem h]
  rfl

lemma gdiv_nonneg_eq (a b : Int) (ha : 0 ≤ a) (hb : 0 ≤ b) : gdiv a b = a / b :=
  Int.tdiv_eq_ediv ha hb

lemma gmod_nonneg_eq (a b : Int) (ha : 0 ≤ a) (hb : 0 ≤ b) : gmod a b = a % b :=
  Int.tmod_eq_emod ha hb

lemma page_index_bounds {pw ph xq yq : Int} (hpw : 0 < pw) (_hph : 0 < ph)
    (hx : 0 ≤ xq) (hx2 : xq < pw) (hy : 0 ≤ yq) (hy2 : yq < ph) :
    0 ≤ xq + pw * yq ∧ xq + pw * yq < pw * ph := by
  constructor
  · have h0 : 0 ≤ pw * yq := mul_nonneg (by omega) hy
    omega
  · have h1 : yq ≤ ph - 1 := by omega
    have h2 : pw * yq ≤ pw * (ph - 1) := mul_le_mul_of_nonneg_left h1 (by omega)
    have h3 : pw * (ph - 1) = pw * ph - pw := by ring
    omega

lemma pageAt_inBounds (m : Grid) (hWF : m.WF) {x y : Int}
    (hx0 : 0 ≤ x) (hy0 : 0 ≤ y) (hx : x < m.Size.X) (hy : y < m.Size.Y) :
    m.pageAt (gdiv x 3) (gdiv y 3) =
      some (gdiv x 3 + m.pageWidth * gdiv y 3).toNat ∧
    (gdiv x 3 + m.pageWidth * gdiv y 3).toNat < m.pages.length := by
  obtain ⟨hpw, hph, hsize, hlen, _, _, _⟩ := hWF
  have hX : m.Size.X = m.pageWidth * 3 := by rw [hsize]
  have hY : m.Size.Y = m.pageHeight * 3 := by rw [hsize]
  rw [hX] at hx
  rw [hY] at hy
  rw [gdiv_nonneg_eq x 3 hx0 (by norm_num), gdiv_nonneg_eq y 3 hy0 (by norm_num)]
  have hxq1 : 0 ≤ x / 3 := by omega
  have hxq2 : x / 3 < m.pageWidth := by omega
  have hyq1 : 0 ≤ y / 3 := by omega
  have hyq2 : y / 3 < m.pageHeight := by omega
  obtain ⟨hb1, hb2⟩ := page_index_bounds hpw hph hxq1 hxq2 hyq1 hyq2
  constructor
  · unfold Grid.pageAt
    rw [if_pos ⟨hb1, by omega⟩]
  · omega

lemma idx_lt_9 {x y : Int} (hx0 : 0 ≤ x) (hy0 : 0 ≤ y) :
    (gmod y 3 * 3 + gmod x 3).toNat < 9 := by
  rw [gmod_nonneg_eq x 3 hx0 (by norm_num), gmod_nonneg_eq y 3 hy0 (by norm_num)]
  omega

/-- Read-back after `MergeAt`: under well-formedness and in bounds, the value
at `(x, y)` after the merge is exactly `fn` of the value before. -/
lemma mergeAt_readback (m : Grid) (hWF : m.WF) (x y : Int) (fn : Value → Value)
    (hx0 : 0 ≤ x) (hy0 : 0 ≤ y) (hx : x < m.Size.X) (hy : y < m.Size.Y) :
    ∃ old, ((m.At x y).1.ValueOf m) = some old ∧
      (((m.MergeAt x y fn).At x y).1.ValueOf (m.MergeAt x y fn)) = some (fn old) := by
  obtain ⟨hpa, hplen⟩ := pageAt_inBounds m hWF hx0 hy0 hx hy
  have hinb : 0 ≤ x ∧ 0 ≤ y ∧ x < m.Size.X ∧ y < m.Size.Y := ⟨hx0, hy0, hx, hy⟩
  set pi := (gdiv x 3 + m.pageWidth * gdiv y 3).toNat with hpi
  set idx := (gmod y 3 * 3 + gmod x 3).toNat with hidx
  have htl : (m.pages.getD pi emptyPage).tiles.length = 9 := by
    obtain ⟨_, _, _, _, _, ht, _⟩ := hWF
    have : m.pages.getD pi emptyPage ∈ m.pages := by
      rw [List.getD_eq_getElem?_getD]
      rw [List.getElem?_eq_getElem hplen]
      exact List.getElem_mem _
    exact ht _ this
  refine ⟨(m.pages.getD pi emptyPage).tileAt idx, ?_, ?_⟩
  · unfold Grid.At
    rw [if_pos hinb]
    unfold Tile.ValueOf
    rw [hpa]
  · unfold Grid.MergeAt
    rw [if_pos hinb, hpa]
    unfold mergeTileG
    dsimp only
    unfold Grid.At Grid.updatePage
    dsimp only
    rw [if_pos hinb]
    have hpa' :
        ({ m with pages := m.pages.set pi ((fun p => { p with tiles := p.tiles.set idx (fn ((m.pages.getD pi emptyPage).tileAt idx)) }) (m.pages.getD pi emptyPage)) } : Grid).pageAt (gdiv x 3) (gdiv y 3) = some pi := by
      unfold Grid.pageAt
      unfold Grid.pageAt at hpa
      simpa using hpa
    rw [hpa']
    unfold Tile.ValueOf
    dsimp only
    rw [getD_set_eq_of_lt _ _ _ _ hplen]
    unfold page.tileAt
    dsimp only
    rw [getD_set_eq_of_lt _ _ _ _ (by
      rw [htl]
      exact idx_lt_9 hx0 hy0)]

/-- C5: for every in-bounds coordinate and 32-bit words `v`, `mask`, after
`MaskAt(x, y, v, mask)` the tile's value equals `(old & ~mask) | (v & mask)`
where `old` is the tile's value immediately before the call. -/
theorem c5_maskat_semantics (m : Grid) (x y : Int) (v mask : Value) (hWF : m.WF)
    (hx0 : 0 ≤ x) (hy0 : 0 ≤ y) (hx : x < m.Size.X) (hy : y < m.Size.Y) :
    ∃ old, ((m.At x y).1.ValueOf m) = some old ∧
      (((m.MaskAt x y v mask).At x y).1.ValueOf (m.MaskAt x y v mask)) =
        some (andNot32 old mask ||| (v &&& mask)) :=
  mergeAt_readback m hWF x y _ hx0 hy0 hx hy

/-- Witness for C5 at the spec's S2 input: a 9x9 grid with tile `(8,8) = 81`;
`MaskAt(8, 8, 0b00101110, 0b00000011)` leaves the value `82`. -/
theorem c5_maskat_semantics_witness :
    (((((NewGridOf 9 9).WriteAt 8 8 81).MaskAt 8 8 46 3).At 8 8).1.ValueOf
        (((NewGridOf 9 9).WriteAt 8 8 81).MaskAt 8 8 46 3)) = some 82 := by
  obtain ⟨old, h1, h2⟩ := c5_maskat_semantics ((NewGridOf 9 9).WriteAt 8 8 81)
    8 8 46 3 (by decide) (by decide) (by decide) (by decide) (by decide)
  have hold : some old = some 81 := by
    rw [← h1]
    decide
  have hold' : old = 81 := by
    injection hold
  rw [hold'] at h2
  rw [h2]
  decide

/-- C6: out-of-bounds coordinates make `At` return the zero-value cursor with
`ok = false`, and `WriteAt`, `MaskAt` and `MergeAt` leave the grid unchanged. -/
theorem c6_bounds_policy (m : Grid) (x y : Int)
    (h : x < 0 ∨ y < 0 ∨ m.Size.X ≤ x ∨ m.Size.Y ≤ y) :
    m.At x y = (⟨none, 0⟩, false) ∧
    (∀ tile, m.WriteAt x y tile = m) ∧
    (∀ tile mask, m.MaskAt x y tile mask = m) ∧
    (∀ fn, m.MergeAt x y fn = m) := by
  have h' : ¬(0 ≤ x ∧ 0 ≤ y ∧ x < m.Size.X ∧ y < m.Size.Y) := by omega
  refine ⟨?_, ?_, ?_, ?_⟩
  · unfold Grid.At
    rw [if_neg h']
  · intro tile
    unfold Grid.WriteAt
    rw [if_neg h']
  · intro tile mask
    unfold Grid.MaskAt Grid.MergeAt
    rw [if_neg h']
  · intro fn
    unfold Grid.MergeAt
    rw [if_neg h']

/-- Witness for C6 on a 9x9 grid at out-of-bounds coordinates. -/
theorem c6_bounds_policy_witness :
    (NewGridOf 9 9).At 9 5 = (⟨none, 0⟩, false) ∧
    (NewGridOf 9 9).WriteAt (-1) 5 7 = NewGridOf 9 9 ∧
    (NewGridOf 9 9).MaskAt 9 5 7 7 = NewGridOf 9 9 ∧
    (NewGridOf 9 9).MergeAt 5 9 (fun w => w + 1) = NewGridOf 9 9 :=
  ⟨(c6_bounds_policy _ 9 5 (by decide)).1,
   (c6_bounds_policy _ (-1) 5 (by decide)).2.1 7,
   (c6_bounds_policy _ 9 5 (by decide)).2.2.1 7 7,
   (c6_bounds_policy _ 5 9 (by decide)).2.2.2 _⟩

-- ------------------------- Within iteration (claim C10) -------------------------

/-- The index list of Go's `for v := lo; v <= hi; v++` loop. -/
def intRange (lo hi : Int) : List Int :=
  (List.range (hi - lo + 1).toNat).map fun (i : Nat) => lo + (i : Int)

/-- `Grid.pagesWithin` selects the pages (possibly `nil`) covering a bounding
box, clipping `se` to the grid size, in x-outer/y-inner loop order. -/
def Grid.pagesWithin (m : Grid) (nw se : Point) : List (Option Nat) :=
  let se' := if se.WithinSize m.Size then se
             else (⟨m.Size.X - 1, m.Size.Y - 1⟩ : Point)
  (intRange (gdiv nw.X 3) (gdiv se'.X 3)).flatMap fun x =>
    (intRange (gdiv nw.Y 3) (gdiv se'.Y 3)).map fun y => m.pageAt x y

/-- `page.Each` iterates the nine tiles of a page in fixed NW..SE order. -/
def page.EachList (m : Grid) (pi : Nat) : List (Point × Tile) :=
  let pg := m.pages.getD pi emptyPage
  let x := pg.point.X
  let y := pg.point.Y
  [(⟨x, y⟩, ⟨some pi, 0⟩), (⟨x+1, y⟩, ⟨some pi, 1⟩), (⟨x+2, y⟩, ⟨some pi, 2⟩),
   (⟨x, y+1⟩, ⟨some pi, 3⟩), (⟨x+1, y+1⟩, ⟨some pi, 4⟩), (⟨x+2, y+1⟩, ⟨some pi, 5⟩),
   (⟨x, y+2⟩, ⟨some pi, 6⟩), (⟨x+1, y+2⟩, ⟨some pi, 7⟩), (⟨x+2, y+2⟩, ⟨some pi, 8⟩)]

/-- Sequence a list of page lookups; `none` models the nil-page dereference
(the Go iteration passes a nil `*page` to a method that reads `p.point`). -/
def collectSome {α : Type} : List (Option α) → Option (List α)
  | [] => some []
  | none :: _ => none
  | some a :: t => (collectSome t).map (a :: ·)

/-- `Grid.Within` iterates every tile inside `[nw, se)`, page by page; `none`
models the nil-pointer fault. The returned list carries the `(Point, Tile)`
pairs passed to the callback. -/
def Grid.Within (m : Grid) (nw se : Point) : Option (List (Point × Tile)) :=
  (collectSome (m.pagesWithin nw se)).map fun pis =>
    pis.flatMap fun pi =>
      (page.EachList m pi).filter fun pt => pt.1.Within nw se

/-- C10 counterexample: on a well-formed 9x9 grid, `Within` with a north-west
corner at negative `x` visits page coordinate `(-1, 0)`, whose row-major index
is `-1`, so `pageAt` yields `nil` and the iteration dereferences a nil page
(modelled by `none`) instead of executing safely. -/
theorem c10_within_counterexample :
    (NewGridOf 9 9).Within (At (-5) 0) (At 5 5) = none := by
  decide

lemma mem_intRange {lo hi x : Int} (h : x ∈ intRange lo hi) : lo ≤ x ∧ x ≤ hi := by
  unfold intRange at h
  simp only [List.mem_map, List.mem_range] at h
  obtain ⟨i, hi2, rfl⟩ := h
  omega

lemma collectSome_of_all_some {α : Type} :
    ∀ l : List (Option α), (∀ o ∈ l, o ≠ none) →
      ∃ l', collectSome l = some l' ∧ ∀ a ∈ l', some a ∈ l := by
  intro l
  induction l with
  | nil =>
    intro _
    exact ⟨[], rfl, by simp⟩
  | cons o t ih =>
    intro h
    obtain ⟨l', hl', hmem⟩ := ih fun x hx => h x (by simp [hx])
    match o, h o (by simp) with
    | some a, _ =>
      refine ⟨a :: l', ?_, ?_⟩
      · unfold collectSome
        rw [hl']
        rfl
      · intro b hb
        rcases List.mem_cons.mp hb with hb | hb
        · simp [hb]
        · simp only [List.mem_cons]
          exact Or.inr (hmem b hb)

lemma pagesWithin_mem (m : Grid) (hWF : m.WF) (nw se : Point)
    (hnx : 0 ≤ nw.X) (hny : 0 ≤ nw.Y) :
    ∀ o ∈ m.pagesWithin nw se, ∃ x y : Int,
      0 ≤ x ∧ x < m.pageWidth ∧ 0 ≤ y ∧ y < m.pageHeight ∧
      o = some ((x + m.pageWidth * y).toNat) := by
  intro o ho
  obtain ⟨hpw, hph, hsize, hlen, _, _, _⟩ := hWF
  have hX : m.Size.X = m.pageWidth * 3 := by rw [hsize]
  have hY : m.Size.Y = m.pageHeight * 3 := by rw [hsize]
  unfold Grid.pagesWithin at ho
  obtain ⟨x, hxm, ho2⟩ := List.mem_flatMap.mp ho
  obtain ⟨y, hym, rfl⟩ := List.mem_map.mp ho2
  obtain ⟨hx1, hx2⟩ := mem_intRange hxm
  obtain ⟨hy1, hy2⟩ := mem_intRange hym
  have hnwx : 0 ≤ gdiv nw.X 3 := by
    rw [gdiv_nonneg_eq _ _ hnx (by norm_num)]
    omega
  have hnwy : 0 ≤ gdiv nw.Y 3 := by
    rw [gdiv_nonneg_eq _ _ hny (by norm_num)]
    omega
  have hse : ∀ c : Int, 0 ≤ c → c ≤ m.pageWidth * 3 - 1 → gdiv c 3 ≤ m.pageWidth - 1 := by
    intro c hc1 hc2
    rw [gdiv_nonneg_eq _ _ hc1 (by norm_num)]
    omega
  have hse' : ∀ c : Int, 0 ≤ c → c ≤ m.pageHeight * 3 - 1 → gdiv c 3 ≤ m.pageHeight - 1 := by
    intro c hc1 hc2
    rw [gdiv_nonneg_eq _ _ hc1 (by norm_num)]
    omega
  have hxlt : x < m.pageWidth ∧ y < m.pageHeight := by
    by_cases hw : se.WithinSize m.Size = true
    · rw [if_pos hw] at hx2 hy2
      simp only [Point.WithinSize, Bool.and_eq_true, decide_eq_true_eq] at hw
      rw [hX] at hw
      rw [hY] at hw
      have h1 := hse se.X (by omega) (by omega)
      have h2 := hse' se.Y (by omega) (by omega)
      omega
    · rw [if_neg hw] at hx2 hy2
      dsimp only at hx2 hy2
      rw [hX] at hx2
      rw [hY] at hy2
      have h1 := hse (m.pageWidth * 3 - 1) (by omega) (by omega)
      have h2 := hse' (m.pageHeight * 3 - 1) (by omega) (by omega)
      omega
  obtain ⟨hb1, hb2⟩ := page_index_bounds hpw hph (by omega) hxlt.1 (by omega) hxlt.2
  refine ⟨x, y, by omega, hxlt.1, by omega, hxlt.2, ?_⟩
  unfold Grid.pageAt
  rw [if_pos ⟨hb1, by omega⟩]

lemma pi_decomp {pw x y : Int} (hpw : 0 < pw) (hx : 0 ≤ x) (hx2 : x < pw)
    (hy : 0 ≤ y) :
    ((x + pw * y).toNat % pw.toNat = x.toNat) ∧
    ((x + pw * y).toNat / pw.toNat = y.toNat) := by
  have hxc : x = (x.toNat : Int) := (Int.toNat_of_nonneg hx).symm
  have hyc : y = (y.toNat : Int) := (Int.toNat_of_nonneg hy).symm
  have hwc : pw = (pw.toNat : Int) := (Int.toNat_of_nonneg (by omega)).symm
  have hsum : (x + pw * y).toNat = x.toNat + pw.toNat * y.toNat := by
    have hmul : (pw * y).toNat = pw.toNat * y.toNat := by
      conv_lhs => rw [hwc, hyc]
      rw [← Nat.cast_mul, Int.toNat_natCast]
    rw [Int.toNat_add hx (mul_nonneg (by omega) hy), hmul]
  have hxlt : x.toNat < pw.toNat := by omega
  constructor
  · rw [hsum, Nat.add_mul_mod_self_left, Nat.mod_eq_of_lt hxlt]
  · rw [hsum, Nat.add_mul_div_left _ _ (by omega : 0 < pw.toNat),
      Nat.div_eq_of_lt hxlt, Nat.zero_add]

/-- C10 amended: for a well-formed grid and any bounding box whose north-west
corner has non-negative coordinates (the south-east corner may be anything,
including beyond the grid), `Within` executes without faulting and invokes the
callback only for points inside the grid bounds and inside `[nw, se)`. -/
theorem c10_within_no_fault (m : Grid) (hWF : m.WF) (nw se : Point)
    (hnx : 0 ≤ nw.X) (hny : 0 ≤ nw.Y) :
    ∃ l, m.Within nw se = some l ∧
      ∀ pt ∈ l, (0 ≤ pt.1.X ∧ pt.1.X < m.Size.X ∧ 0 ≤ pt.1.Y ∧ pt.1.Y < m.Size.Y) ∧
        pt.1.Within nw se = true := by
  have hmem := pagesWithin_mem m hWF nw se hnx hny
  obtain ⟨pis, hpis, hback⟩ := collectSome_of_all_some (m.pagesWithin nw se)
    (fun o ho => by
      obtain ⟨x, y, _, _, _, _, rfl⟩ := hmem o ho
      simp)
  refine ⟨_, by
    unfold Grid.Within
    rw [hpis]
    rfl, ?_⟩
  intro pt hpt
  simp only [List.mem_flatMap] at hpt
  obtain ⟨pi, hpim, hptm⟩ := hpt
  have hfilter := List.mem_filter.mp hptm
  refine ⟨?_, hfilter.2⟩
  -- locate the page and its origin
  obtain ⟨x, y, hx1, hx2, hy1, hy2, hpieq⟩ := hmem (some pi) (hback pi hpim)
  have hpi : pi = (x + m.pageWidth * y).toNat := by
    injection hpieq
  obtain ⟨hpw, hph, hsize, hlen, hpts, _, _⟩ := hWF
  have hX : m.Size.X = m.pageWidth * 3 := by rw [hsize]
  have hY : m.Size.Y = m.pageHeight * 3 := by rw [hsize]
  obtain ⟨hb1, hb2⟩ := page_index_bounds hpw hph hx1 hx2 hy1 hy2
  have hpilen : pi < m.pages.length := by omega
  have hpoint := hpts pi hpilen
  obtain ⟨hmod, hdiv⟩ := pi_decomp hpw hx1 hx2 hy1
  rw [hpi] at hpoint
  rw [hmod, hdiv] at hpoint
  have hxg : ((x.toNat : Int)) = x := Int.toNat_of_nonneg hx1
  have hyg : ((y.toNat : Int)) = y := Int.toNat_of_nonneg hy1
  rw [hxg, hyg] at hpoint
  rw [← hpi] at hpoint
  -- enumerate the nine tiles of the page
  have hfl := hfilter.1
  simp only [page.EachList, hpoint, List.mem_cons, List.not_mem_nil, or_false] at hfl
  rcases hfl with h | h | h | h | h | h | h | h | h <;>
    (subst h; refine ⟨?_, ?_, ?_, ?_⟩ <;> (dsimp only; omega))

-- ------------------------- Entity move (claim C1) -------------------------

/-- `page.delObject` removes the object from the page state set and returns
the tile word at index `idx` of that page. -/
def delObjectG (m : Grid) (pi : Nat) (idx : Nat) (object : String) : Grid × Value :=
  let pg := m.pages.getD pi emptyPage
  let m' := m.updatePage pi fun p =>
    { p with state := p.state.filter fun e => e.1 ≠ object }
  (m', pg.tileAt idx)

/-- `page.addObject` maps the object to index `idx` in the page state set and
returns the tile word at index `idx` of that page. -/
def addObjectG (m : Grid) (pi : Nat) (idx : Nat) (object : String) : Grid × Value :=
  let pg := m.pages.getD pi emptyPage
  let m' := m.updatePage pi fun p =>
    { p with state := (p.state.filter fun e => e.1 ≠ object) ++ [(object, idx)] }
  (m', pg.tileAt idx)

/-- Result of a `Tile.Move`: the updated grid, the returned flag, and the
single `Update` notification prepared for dispatch (`none` when neither the
source nor the destination page is observed). -/
structure MoveResult where
  grid : Grid
  ok : Bool
  update : Option Update
deriving DecidableEq, Repr

/-- `Tile.Move` moves an object from the cursor's tile to `dst`: resolve the
destination, remove the object from the source page (reading the source
page's word at the destination's intra-page index `d.idx`, as the code does),
add it to the destination page, and build the update. The outer `none` models
a nil-cursor dereference. -/
def Tile.Move (m : Grid) (t : Tile) (v : String) (dst : Point) : Option MoveResult :=
  let dok := m.At dst.X dst.Y
  let d := dok.1
  if !dok.2 then some ⟨m, false, none⟩
  else
    match t.data, d.data with
    | some tpi, some dpi =>
      let r1 := delObjectG m tpi d.idx v
      let r2 := addObjectG r1.1 dpi d.idx v
      let tobs := (m.pages.getD tpi emptyPage).IsObserved
      let dobs := (m.pages.getD dpi emptyPage).IsObserved
      if !tobs && !dobs then some ⟨r2.1, true, none⟩
      else
        some ⟨r2.1, true, some
          { Old := ⟨pointOf (m.pages.getD tpi emptyPage).point t.idx, r1.2⟩
            New := ⟨pointOf (m.pages.getD dpi emptyPage).point d.idx, r2.2⟩
            Del := v
            Add := v }⟩
    | _, _ => none

/-- The S6 scenario grid: a 9x9 grid with tile values `33` at `(3,3)`,
`55` at `(5,5)`, `66` at `(6,6)`, and the page of `(5,5)` (page index 4)
observed. -/
def moveExampleGrid : Grid :=
  ((((NewGridOf 9 9).WriteAt 3 3 33).WriteAt 5 5 55).WriteAt 6 6 66).updatePage 4
    fun p => p.SetObserved true

/-- C1 failing input (S6): moving `"A"` from the observed tile `(5,5)` to
`(6,6)` emits exactly one update, but its `Old` pairs the source point
`(5,5)` with the value `33` — the source page's word at the destination's
intra-page index (tile `(3,3)`) — not the source tile's value `55`. -/
theorem c1_move_old_value_mismatch :
    ((Tile.Move moveExampleGrid ((moveExampleGrid.At 5 5).1) "A" (At 6 6)).map
        fun r => r.update.map fun u => u.Old) = some (some ⟨At 5 5, 33⟩) ∧
    ((moveExampleGrid.At 5 5).1.ValueOf moveExampleGrid) = some 55 := by
  decide

-- ---------------------------- Binary codec (C2, C9) ----------------------------

/-- Serialize a 32-bit tile word to four bytes (the in-memory layout of the
`[9]Value` array on the little-endian targets the code copies raw). -/
def word4 (v : Value) : List Nat :=
  [v % 256, v / 256 % 256, v / 65536 % 256, v / 16777216 % 256]

/-- The 36-byte raw image of a page's tile array. -/
def pageBytes (pg : page) : List Nat := pg.tiles.flatMap word4

/-- `binary.BigEndian.PutUint16`. -/
def putUint16BE (v : Nat) : List Nat := [v / 256 % 256, v % 256]

/-- `Grid.WriteTo` writes the 8-byte header followed by the pages covering
`(0,0)..(Size-1)`; `none` models the nil-page dereference. -/
def Grid.WriteTo (m : Grid) : Option (List Nat) :=
  let p1 : Point := ⟨0, 0⟩
  let p2 : Point := ⟨m.Size.X - 1, m.Size.Y - 1⟩
  let header := putUint16BE (toUint16 p1.X) ++ putUint16BE (toUint16 p1.Y) ++
    putUint16BE (toUint16 p2.X) ++ putUint16BE (toUint16 p2.Y)
  (collectSome (m.pagesWithin p1 p2)).map fun pis =>
    header ++ pis.flatMap fun pi => pageBytes (m.pages.getD pi emptyPage)

/-- Decode nine little-endian 32-bit words from a 36-byte chunk. -/
def parsePage (chunk : List Nat) : List Value :=
  (List.range 9).map fun k =>
    chunk.getD (4*k) 0 + 256 * chunk.getD (4*k+1) 0 +
      65536 * chunk.getD (4*k+2) 0 + 16777216 * chunk.getD (4*k+3) 0

/-- Stream 36-byte chunks into the listed pages; a short read sets the error
flag, skips the copy and keeps failing for the remaining pages (the closure
`return`s but the iteration continues), exactly as the source does. -/
def fillPages : List Nat → Grid → List Nat → Bool → Grid × Bool
  | [], g, _, err => (g, err)
  | pi :: rest, g, body, err =>
    if err then fillPages rest g body true
    else if body.length < 36 then fillPages rest g [] true
    else fillPages rest
      (g.updatePage pi fun p => { p with tiles := parsePage (body.take 36) })
      (body.drop 36) false

/-- `binary.BigEndian.Uint16` of two header bytes. -/
def headerU16 (src : List Nat) (i : Nat) : Nat :=
  256 * src.getD i 0 + src.getD (i+1) 0

/-- The decoded header rectangle `view`. -/
def headerRect (src : List Nat) : Rect :=
  ⟨⟨toInt16 (headerU16 src 0), toInt16 (headerU16 src 2)⟩,
   ⟨toInt16 (headerU16 src 4), toInt16 (headerU16 src 6)⟩⟩

/-- The grid `ReadFrom` allocates: `NewGridOf (view.Max + 1)`. -/
def readGrid (src : List Nat) : Grid :=
  NewGridOf ((headerRect src).Max.X + 1) ((headerRect src).Max.Y + 1)

/-- `ReadFrom` reads the header, allocates `NewGridOf (max+1)` and streams
tile words into the covered pages. The outer `none` models a nil-page
dereference; the inner pair is Go's `(grid, err)` return. -/
def ReadFrom (src : List Nat) : Option (Option Grid × Bool) :=
  if src.length < 8 then some (none, true)
  else
    (collectSome ((readGrid src).pagesWithin (headerRect src).Min
        (headerRect src).Max)).map fun pis =>
      (some (fillPages pis (readGrid src) (src.drop 8) false).1,
       (fillPages pis (readGrid src) (src.drop 8) false).2)

/-- The row-major page indices in the order the x-outer/y-inner covering
iteration visits them. -/
def coverList (pw ph : Int) : List Nat :=
  (intRange 0 (pw - 1)).flatMap fun x =>
    (intRange 0 (ph - 1)).map fun y => (x + pw * y).toNat

lemma collectSome_map_some {α : Type} (l : List α) :
    collectSome (l.map some) = some l := by
  induction l with
  | nil => rfl
  | cons a t ih =>
    rw [List.map_cons]
    show (collectSome (t.map some)).map (a :: ·) = some (a :: t)
    rw [ih]
    rfl

lemma gdiv_zero (b : Int) : gdiv 0 b = 0 := Int.zero_tdiv b

lemma pagesWithin_cover (m : Grid) (hWF : m.WF) (se : Point)
    (hseX : m.Size.X - 1 ≤ se.X) (hseY : m.Size.Y - 1 ≤ se.Y) :
    m.pagesWithin ⟨0, 0⟩ se = (coverList m.pageWidth m.pageHeight).map some := by
  obtain ⟨hpw, hph, hsize, hlen, _, _, _⟩ := hWF
  have hX : m.Size.X = m.pageWidth * 3 := by rw [hsize]
  have hY : m.Size.Y = m.pageHeight * 3 := by rw [hsize]
  unfold Grid.pagesWithin
  have hse' : (if Point.WithinSize se m.Size then se
      else (⟨m.Size.X - 1, m.Size.Y - 1⟩ : Point)) =
      (⟨m.Size.X - 1, m.Size.Y - 1⟩ : Point) := by
    by_cases hw : Point.WithinSize se m.Size = true
    · rw [if_pos hw]
      simp only [Point.WithinSize, Bool.and_eq_true, decide_eq_true_eq] at hw
      have : se = (⟨m.Size.X - 1, m.Size.Y - 1⟩ : Point) := by
        cases se
        simp only [Point.mk.injEq]
        dsimp only at hw hseX hseY
        omega
      rw [this]
    · rw [if_neg hw]
  rw [hse']
  dsimp only
  have hdx : gdiv (m.Size.X - 1) 3 = m.pageWidth - 1 := by
    rw [gdiv_nonneg_eq _ _ (by omega) (by norm_num)]
    omega
  have hdy : gdiv (m.Size.Y - 1) 3 = m.pageHeight - 1 := by
    rw [gdiv_nonneg_eq _ _ (by omega) (by norm_num)]
    omega
  rw [hdx, hdy]
  unfold coverList
  rw [List.map_flatMap]
  refine flatMap_congr_of fun x hx => ?_
  obtain ⟨hx1, hx2⟩ := mem_intRange hx
  rw [List.map_map]
  refine List.map_congr_left fun y hy => ?_
  obtain ⟨hy1, hy2⟩ := mem_intRange hy
  obtain ⟨hb1, hb2⟩ := page_index_bounds hpw hph hx1 (by omega) hy1 (by omega)
  show m.pageAt x y = some ((x + m.pageWidth * y).toNat)
  unfold Grid.pageAt
  rw [if_pos ⟨hb1, by omega⟩]

lemma getD_map_range {α : Type} {n i : Nat} (f : Nat → α) (d : α) (h : i < n) :
    ((List.range n).map f).getD i d = f i := by
  rw [List.getD_eq_getElem?_getD, List.getElem?_map, List.getElem?_range h]
  rfl

lemma getD_set_ne {α : Type} (l : List α) {i j : Nat} (a d : α) (h : i ≠ j) :
    (l.set i a).getD j d = l.getD j d := by
  rw [List.getD_eq_getElem?_getD, List.getElem?_set_ne h, ← List.getD_eq_getElem?_getD]

lemma NewGridOf_WF (w h : Int) (hw : 3 ≤ w) (hh : 3 ≤ h) :
    (NewGridOf w h).WF := by
  have hpw : 0 < gdiv w 3 := by
    rw [gdiv_nonneg_eq _ _ (by omega) (by norm_num)]
    omega
  have hph : 0 < gdiv h 3 := by
    rw [gdiv_nonneg_eq _ _ (by omega) (by norm_num)]
    omega
  have hlen : (NewGridOf w h).pages.length = (gdiv w 3 * gdiv h 3).toNat := by
    unfold NewGridOf
    rw [List.length_map, List.length_range]
  refine ⟨hpw, hph, rfl, ?_, ?_, ?_, ?_⟩
  · rw [hlen]
    rw [Int.toNat_of_nonneg (mul_nonneg (by omega) (by omega))]
    rfl
  · intro i hi
    rw [hlen] at hi
    unfold NewGridOf
    dsimp only
    rw [getD_map_range _ _ hi]
    rfl
  · intro pg hpg
    unfold NewGridOf at hpg
    obtain ⟨i, _, rfl⟩ := List.mem_map.mp hpg
    exact List.length_replicate 9 0
  · intro pg hpg v hv
    unfold NewGridOf at hpg
    obtain ⟨i, _, rfl⟩ := List.mem_map.mp hpg
    dsimp only at hv
    rw [List.eq_of_mem_replicate hv]
    norm_num

lemma flatMap_word4_length (l : List Value) : (l.flatMap word4).length = 4 * l.length := by
  induction l with
  | nil => rfl
  | cons v t ih =>
    rw [List.flatMap_cons, List.length_append, ih]
    simp [word4]
    omega

lemma pageBytes_length (pg : page) (h9 : pg.tiles.length = 9) :
    (pageBytes pg).length = 36 := by
  unfold pageBytes
  rw [flatMap_word4_length, h9]

lemma flatMap_word4_getD (l : List Value) :
    ∀ k j, k < l.length → j < 4 →
      (l.flatMap word4).getD (4*k + j) 0 = (word4 (l.getD k 0)).getD j 0 := by
  induction l with
  | nil =>
    intro k j hk _
    simp at hk
  | cons v t ih =>
    intro k j hk hj
    rw [List.flatMap_cons]
    cases k with
    | zero =>
      rw [List.getD_append _ _ _ _ (by simp [word4]; omega)]
      simp only [Nat.mul_zero, Nat.zero_add]
      rfl
    | succ k' =>
      have h4 : (word4 v).length = 4 := rfl
      have hpos : 4*(k'+1) + j = (word4 v).length + (4*k' + j) := by
        rw [h4]
        omega
      rw [hpos, List.getD_append_right]
      · rw [Nat.add_sub_cancel_left, ih k' j (by simpa using hk) hj]
        rfl
      · omega

lemma parsePage_pageBytes (pg : page) (h9 : pg.tiles.length = 9)
    (hlt : ∀ v ∈ pg.tiles, v < 4294967296) :
    parsePage (pageBytes pg) = pg.tiles := by
  apply List.ext_getElem
  · unfold parsePage
    rw [List.length_map, List.length_range, h9]
  · intro k hk1 hk2
    unfold parsePage
    rw [List.getElem_map, List.getElem_range]
    have hkt : k < pg.tiles.length := hk2
    have hb := fun j hj => flatMap_word4_getD pg.tiles k j hkt hj
    have hb0 := hb 0 (by omega)
    rw [Nat.add_zero] at hb0
    unfold pageBytes
    rw [hb0, hb 1 (by omega), hb 2 (by omega), hb 3 (by omega)]
    have hv : pg.tiles.getD k 0 = pg.tiles[k] := by
      rw [List.getD_eq_getElem?_getD, List.getElem?_eq_getElem hkt]
      rfl
    have hvlt : pg.tiles[k] < 4294967296 := hlt _ (List.getElem_mem hkt)
    show pg.tiles.getD k 0 % 256 + 256 * (pg.tiles.getD k 0 / 256 % 256) +
        65536 * (pg.tiles.getD k 0 / 65536 % 256) +
        16777216 * (pg.tiles.getD k 0 / 16777216 % 256) = pg.tiles[k]
    have hvlt' : pg.tiles.getD k 0 < 4294967296 := by
      rw [hv]
      exact hvlt
    rw [← hv]
    obtain ⟨n, hn⟩ : ∃ n : Nat, pg.tiles.getD k 0 = n := ⟨pg.tiles.getD k 0, rfl⟩
    rw [hn] at hvlt' ⊢
    suffices hsuf : ∀ n2 : Nat, n2 < 4294967296 →
        n2 % 256 + 256 * (n2 / 256 % 256) + 65536 * (n2 / 65536 % 256) +
          16777216 * (n2 / 16777216 % 256) = n2 by
      exact hsuf n hvlt'
    intro n2 h2
    omega

lemma WF_getD_tiles (m : Grid) (hWF : m.WF) (pi : Nat) :
    (m.pages.getD pi emptyPage).tiles.length = 9 ∧
    ∀ v ∈ (m.pages.getD pi emptyPage).tiles, v < 4294967296 := by
  obtain ⟨_, _, _, _, _, ht, hv⟩ := hWF
  by_cases h : pi < m.pages.length
  · have hmem : m.pages.getD pi emptyPage ∈ m.pages := by
      rw [List.getD_eq_getElem?_getD, List.getElem?_eq_getElem h]
      exact List.getElem_mem h
    exact ⟨ht _ hmem, hv _ hmem⟩
  · rw [List.getD_eq_default _ _ (by omega)]
    refine ⟨List.length_replicate 9 0, fun v hv2 => ?_⟩
    rw [List.eq_of_mem_replicate hv2]
    norm_num

lemma fillPages_spec (src : Grid)
    (hsrc : ∀ pi : Nat, (src.pages.getD pi emptyPage).tiles.length = 9 ∧
      ∀ v ∈ (src.pages.getD pi emptyPage).tiles, v < 4294967296) :
    ∀ (pis : List Nat) (g : Grid), (∀ pi ∈ pis, pi < g.pages.length) →
      ∃ g', fillPages pis g
          (pis.flatMap fun pi => pageBytes (src.pages.getD pi emptyPage)) false =
          (g', false) ∧
        g'.Size = g.Size ∧ g'.pageWidth = g.pageWidth ∧ g'.pageHeight = g.pageHeight ∧
        g'.pages.length = g.pages.length ∧
        ∀ i : Nat, (g'.pages.getD i emptyPage).tiles =
          if i ∈ pis then (src.pages.getD i emptyPage).tiles
          else (g.pages.getD i emptyPage).tiles := by
  intro pis
  induction pis with
  | nil =>
    intro g _
    exact ⟨g, rfl, rfl, rfl, rfl, rfl, fun i => by simp⟩
  | cons pi rest ih =>
    intro g hlen
    have h9 := (hsrc pi).1
    have hbl : (pageBytes (src.pages.getD pi emptyPage)).length = 36 :=
      pageBytes_length _ h9
    set sp := src.pages.getD pi emptyPage with hsp
    set restBody := rest.flatMap fun pj => pageBytes (src.pages.getD pj emptyPage)
      with hrb
    have hflat : ((pi :: rest).flatMap fun pj =>
        pageBytes (src.pages.getD pj emptyPage)) = pageBytes sp ++ restBody := by
      rw [List.flatMap_cons]
    rw [hflat]
    have hlen36 : ¬ ((pageBytes sp ++ restBody).length < 36) := by
      rw [List.length_append, hbl]
      omega
    have hstep : fillPages (pi :: rest) g (pageBytes sp ++ restBody) false =
        fillPages rest
          (g.updatePage pi fun p =>
            { p with tiles := parsePage ((pageBytes sp ++ restBody).take 36) })
          ((pageBytes sp ++ restBody).drop 36) false := by
      conv_lhs => rw [fillPages]
      rw [if_neg (by simp), if_neg hlen36]
    have htake : (pageBytes sp ++ restBody).take 36 = pageBytes sp := by
      rw [← hbl, List.take_left]
    have hdrop : (pageBytes sp ++ restBody).drop 36 = restBody := by
      rw [← hbl, List.drop_left]
    rw [hstep, htake, hdrop]
    set g1 := g.updatePage pi fun p => { p with tiles := parsePage (pageBytes sp) }
      with hg1
    have hg1len : g1.pages.length = g.pages.length := by
      rw [hg1]
      unfold Grid.updatePage
      dsimp only
      rw [List.length_set]
    obtain ⟨g', hfill, hsz, hpw, hph, hplen, htiles⟩ := ih g1 (fun pj hpj => by
      rw [hg1len]
      exact hlen pj (by simp [hpj]))
    refine ⟨g', hfill, by rw [hsz]; rfl, by rw [hpw]; rfl, by rw [hph]; rfl,
      by rw [hplen, hg1len], fun i => ?_⟩
    rw [htiles i]
    by_cases hir : i ∈ rest
    · rw [if_pos hir, if_pos (by simp [hir])]
    · rw [if_neg hir]
      by_cases hip : i = pi
      · subst hip
        rw [if_pos (by simp)]
        rw [hg1]
        unfold Grid.updatePage
        dsimp only
        rw [getD_set_eq_of_lt _ _ _ _ (hlen i (by simp))]
        dsimp only
        rw [parsePage_pageBytes _ h9 (hsrc i).2]
      · rw [if_neg (by simp [hip, hir])]
        rw [hg1]
        unfold Grid.updatePage
        dsimp only
        rw [getD_set_ne _ _ _ (fun h => hip h.symm)]

lemma toUint16_id (v : Int) (h1 : 0 ≤ v) (h2 : v < 65536) : toUint16 v = v.toNat := by
  unfold toUint16
  omega

lemma toInt16_small (n : Nat) (h : n < 32768) : toInt16 n = (n : Int) := by
  unfold toInt16
  dsimp only
  rw [Nat.mod_eq_of_lt (by omega)]
  rw [if_pos h]

/-- The full header plus body for a stream with min corner `(0,0)` and max
corner `(mx, my)`. -/
def streamBytes (mx my : Int) (body : List Nat) : List Nat :=
  putUint16BE (toUint16 0) ++ putUint16BE (toUint16 0) ++
    putUint16BE (toUint16 mx) ++ putUint16BE (toUint16 my) ++ body

lemma streamBytes_cons (mx my : Int) (body : List Nat) :
    streamBytes mx my body =
      0 :: 0 :: 0 :: 0 :: (toUint16 mx / 256 % 256) :: (toUint16 mx % 256) ::
        (toUint16 my / 256 % 256) :: (toUint16 my % 256) :: body := rfl

lemma headerRect_streamBytes (mx my : Int)
    (hmx1 : 0 ≤ mx) (hmx2 : mx ≤ 32766) (hmy1 : 0 ≤ my) (hmy2 : my ≤ 32766)
    (body : List Nat) :
    headerRect (streamBytes mx my body) = ⟨⟨0, 0⟩, ⟨mx, my⟩⟩ := by
  have hMx : toUint16 mx = mx.toNat := toUint16_id mx hmx1 (by omega)
  have hMy : toUint16 my = my.toNat := toUint16_id my hmy1 (by omega)
  have hmxlt : mx.toNat < 32768 := by omega
  have hmylt : my.toNat < 32768 := by omega
  unfold headerRect headerU16
  rw [streamBytes_cons]
  have g0 : ((0 : Nat) :: 0 :: 0 :: 0 :: (toUint16 mx / 256 % 256) :: (toUint16 mx % 256) ::
      (toUint16 my / 256 % 256) :: (toUint16 my % 256) :: body).getD 0 0 = 0 := rfl
  have g1 : ((0 : Nat) :: 0 :: 0 :: 0 :: (toUint16 mx / 256 % 256) :: (toUint16 mx % 256) ::
      (toUint16 my / 256 % 256) :: (toUint16 my % 256) :: body).getD 1 0 = 0 := rfl
  have g2 : ((0 : Nat) :: 0 :: 0 :: 0 :: (toUint16 mx / 256 % 256) :: (toUint16 mx % 256) ::
      (toUint16 my / 256 % 256) :: (toUint16 my % 256) :: body).getD 2 0 = 0 := rfl
  have g3 : ((0 : Nat) :: 0 :: 0 :: 0 :: (toUint16 mx / 256 % 256) :: (toUint16 mx % 256) ::
      (toUint16 my / 256 % 256) :: (toUint16 my % 256) :: body).getD 3 0 = 0 := rfl
  have g4 : ((0 : Nat) :: 0 :: 0 :: 0 :: (toUint16 mx / 256 % 256) :: (toUint16 mx % 256) ::
      (toUint16 my / 256 % 256) :: (toUint16 my % 256) :: body).getD 4 0 =
      toUint16 mx / 256 % 256 := rfl
  have g5 : ((0 : Nat) :: 0 :: 0 :: 0 :: (toUint16 mx / 256 % 256) :: (toUint16 mx % 256) ::
      (toUint16 my / 256 % 256) :: (toUint16 my % 256) :: body).getD 5 0 =
      toUint16 mx % 256 := rfl
  have g6 : ((0 : Nat) :: 0 :: 0 :: 0 :: (toUint16 mx / 256 % 256) :: (toUint16 mx % 256) ::
      (toUint16 my / 256 % 256) :: (toUint16 my % 256) :: body).getD 6 0 =
      toUint16 my / 256 % 256 := rfl
  have g7 : ((0 : Nat) :: 0 :: 0 :: 0 :: (toUint16 mx / 256 % 256) :: (toUint16 mx % 256) ::
      (toUint16 my / 256 % 256) :: (toUint16 my % 256) :: body).getD 7 0 =
      toUint16 my % 256 := rfl
  rw [g0, g1, g2, g3, g4, g5, g6, g7, hMx, hMy]
  have hx : 256 * (mx.toNat / 256 % 256) + mx.toNat % 256 = mx.toNat := by omega
  have hy : 256 * (my.toNat / 256 % 256) + my.toNat % 256 = my.toNat := by omega
  rw [hx, hy]
  rw [toInt16_small _ hmxlt, toInt16_small _ hmylt]
  have h0 : toInt16 (256 * 0 + 0) = 0 := rfl
  rw [h0]
  rw [Int.toNat_of_nonneg hmx1, Int.toNat_of_nonneg hmy1]

lemma ReadFrom_streamBytes (mx my : Int) (body : List Nat)
    (hmx1 : 0 ≤ mx) (hmx2 : mx ≤ 32766) (hmy1 : 0 ≤ my) (hmy2 : my ≤ 32766) :
    ReadFrom (streamBytes mx my body) =
      (collectSome ((NewGridOf (mx + 1) (my + 1)).pagesWithin
          (⟨0, 0⟩ : Point) (⟨mx, my⟩ : Point))).map fun pis =>
        (some (fillPages pis (NewGridOf (mx + 1) (my + 1)) body false).1,
         (fillPages pis (NewGridOf (mx + 1) (my + 1)) body false).2) := by
  have hrect := headerRect_streamBytes mx my hmx1 hmx2 hmy1 hmy2 body
  have hgrid : readGrid (streamBytes mx my body) = NewGridOf (mx + 1) (my + 1) := by
    unfold readGrid
    rw [hrect]
  have hlen : ¬ ((streamBytes mx my body).length < 8) := by
    rw [streamBytes_cons]
    simp
  have hdrop : (streamBytes mx my body).drop 8 = body := by
    rw [streamBytes_cons]
    rfl
  unfold ReadFrom
  rw [if_neg hlen, hgrid, hrect, hdrop]

lemma mem_intRange_intro {lo hi x : Int} (h1 : lo ≤ x) (h2 : x ≤ hi) :
    x ∈ intRange lo hi := by
  unfold intRange
  simp only [List.mem_map, List.mem_range]
  exact ⟨(x - lo).toNat, by omega, by omega⟩

lemma coverList_mem {pw ph : Int} (hpw : 0 < pw) (hph : 0 < ph) {pi : Nat}
    (h : pi ∈ coverList pw ph) : (pi : Int) < pw * ph := by
  unfold coverList at h
  obtain ⟨x, hxm, h2⟩ := List.mem_flatMap.mp h
  simp only [List.mem_map] at h2
  obtain ⟨y, hym, rfl⟩ := h2
  obtain ⟨hx1, hx2⟩ := mem_intRange hxm
  obtain ⟨hy1, hy2⟩ := mem_intRange hym
  obtain ⟨hb1, hb2⟩ := page_index_bounds hpw hph hx1 (by omega) hy1 (by omega)
  omega

lemma coverList_complete {pw ph : Int} (hpw : 0 < pw) (hph : 0 < ph) (i : Nat)
    (h : (i : Int) < pw * ph) : i ∈ coverList pw ph := by
  have hpwn : (pw.toNat : Int) = pw := Int.toNat_of_nonneg (by omega)
  have hphn : (ph.toNat : Int) = ph := Int.toNat_of_nonneg (by omega)
  have hprod : ((pw.toNat * ph.toNat : Nat) : Int) = pw * ph := by
    rw [Nat.cast_mul, hpwn, hphn]
  have hi : i < pw.toNat * ph.toNat := by
    have h2 : ((i : Nat) : Int) < ((pw.toNat * ph.toNat : Nat) : Int) := by
      rw [hprod]
      exact h
    exact_mod_cast h2
  have hilt : i / pw.toNat < ph.toNat := by
    rw [Nat.div_lt_iff_lt_mul (by omega)]
    calc i < pw.toNat * ph.toNat := hi
    _ = ph.toNat * pw.toNat := Nat.mul_comm _ _
  have himod : i % pw.toNat < pw.toNat := Nat.mod_lt _ (by omega)
  have hxc : ((i % pw.toNat : Nat) : Int) < pw := by
    rw [← hpwn]
    exact_mod_cast himod
  have hyc : ((i / pw.toNat : Nat) : Int) < ph := by
    rw [← hphn]
    exact_mod_cast hilt
  clear h hprod hi
  unfold coverList
  refine List.mem_flatMap.mpr ⟨((i % pw.toNat : Nat) : Int), ?_, ?_⟩
  · exact mem_intRange_intro (Int.natCast_nonneg _) (by linarith [hxc])
  · refine List.mem_map.mpr ⟨((i / pw.toNat : Nat) : Int), ?_, ?_⟩
    · exact mem_intRange_intro (Int.natCast_nonneg _) (by linarith [hyc])
    · have hval : ((i % pw.toNat : Nat) : Int) + pw * ((i / pw.toNat : Nat) : Int) =
          (i : Int) := by
        rw [← hpwn, ← Nat.cast_mul, ← Nat.cast_add]
        have := Nat.div_add_mod i pw.toNat
        exact_mod_cast by omega
      rw [hval]
      omega

lemma gdiv_mul3 (a : Int) (ha : 0 ≤ a) : gdiv (a * 3) 3 = a := by
  rw [gdiv_nonneg_eq _ _ (by omega) (by norm_num)]
  omega

lemma WF_parts (m : Grid) (hWF : m.WF) :
    0 < m.pageWidth ∧ 0 < m.pageHeight ∧
    m.Size = ⟨m.pageWidth * 3, m.pageHeight * 3⟩ ∧
    (m.pages.length : Int) = m.pageWidth * m.pageHeight := by
  obtain ⟨h1, h2, h3, h4, _, _, _⟩ := hWF
  exact ⟨h1, h2, h3, h4⟩

/-- C2: the codec round-trip. For every well-formed grid whose size fits in a
signed 16-bit header, `WriteTo` succeeds, `ReadFrom` of the produced bytes
succeeds without error, and the decoded grid has the same size, the same
number of pages, and identical nine-word tile arrays on every page. -/
theorem c2_codec_roundtrip (m : Grid) (hWF : m.WF)
    (hX : m.Size.X ≤ 32767) (hY : m.Size.Y ≤ 32767) :
    ∃ bytes g', m.WriteTo = some bytes ∧
      ReadFrom bytes = some (some g', false) ∧
      g'.Size = m.Size ∧ g'.pages.length = m.pages.length ∧
      ∀ i : Nat, (g'.pages.getD i emptyPage).tiles =
        (m.pages.getD i emptyPage).tiles := by
  obtain ⟨hpw, hph, hsize, hlen⟩ := WF_parts m hWF
  have hSX : m.Size.X = m.pageWidth * 3 := by rw [hsize]
  have hSY : m.Size.Y = m.pageHeight * 3 := by rw [hsize]
  have hcover := pagesWithin_cover m hWF ⟨m.Size.X - 1, m.Size.Y - 1⟩
    (le_refl _) (le_refl _)
  have hwrite : m.WriteTo = some (streamBytes (m.Size.X - 1) (m.Size.Y - 1)
      ((coverList m.pageWidth m.pageHeight).flatMap fun pi =>
        pageBytes (m.pages.getD pi emptyPage))) := by
    simp only [Grid.WriteTo]
    rw [hcover, collectSome_map_some]
    rfl
  have hmx1 : (0 : Int) ≤ m.Size.X - 1 := by omega
  have hmy1 : (0 : Int) ≤ m.Size.Y - 1 := by omega
  have hread := ReadFrom_streamBytes (m.Size.X - 1) (m.Size.Y - 1)
    ((coverList m.pageWidth m.pageHeight).flatMap fun pi =>
      pageBytes (m.pages.getD pi emptyPage))
    hmx1 (by omega) hmy1 (by omega)
  rw [show m.Size.X - 1 + 1 = m.Size.X from by omega,
      show m.Size.Y - 1 + 1 = m.Size.Y from by omega] at hread
  set G := NewGridOf m.Size.X m.Size.Y with hG
  have hGpw : G.pageWidth = m.pageWidth := by
    rw [hG]
    show gdiv m.Size.X 3 = m.pageWidth
    rw [hSX]
    exact gdiv_mul3 m.pageWidth (by omega)
  have hGph : G.pageHeight = m.pageHeight := by
    rw [hG]
    show gdiv m.Size.Y 3 = m.pageHeight
    rw [hSY]
    exact gdiv_mul3 m.pageHeight (by omega)
  have hGsize : G.Size = m.Size := by
    rw [hG]
    show At (gdiv m.Size.X 3 * 3) (gdiv m.Size.Y 3 * 3) = m.Size
    rw [hSX, hSY, gdiv_mul3 m.pageWidth (by omega),
        gdiv_mul3 m.pageHeight (by omega), hsize]
    rfl
  have hGWF : G.WF := by
    rw [hG]
    exact NewGridOf_WF _ _ (by omega) (by omega)
  obtain ⟨-, -, -, hGlen⟩ := WF_parts G hGWF
  rw [hGpw, hGph] at hGlen
  have hGcover := pagesWithin_cover G hGWF ⟨m.Size.X - 1, m.Size.Y - 1⟩
    (by rw [hGsize]) (by rw [hGsize])
  rw [hGpw, hGph] at hGcover
  rw [hGcover, collectSome_map_some] at hread
  simp only [Option.map_some'] at hread
  obtain ⟨P, hP⟩ : ∃ P : Int, m.pageWidth * m.pageHeight = P := ⟨_, rfl⟩
  rw [hP] at hGlen hlen
  have hlenG : ∀ pi ∈ coverList m.pageWidth m.pageHeight, pi < G.pages.length := by
    intro pi hpi
    have h1 := coverList_mem hpw hph hpi
    rw [hP] at h1
    omega
  obtain ⟨g', hfill, hsz', hpw', hph', hplen', htiles'⟩ :=
    fillPages_spec m (fun pi => WF_getD_tiles m hWF pi)
      (coverList m.pageWidth m.pageHeight) G hlenG
  rw [hfill] at hread
  have hlenEq : G.pages.length = m.pages.length := by omega
  refine ⟨_, g', hwrite, hread.trans rfl, hsz'.trans hGsize,
    hplen'.trans hlenEq, fun i => ?_⟩
  rw [htiles' i]
  by_cases hic : i ∈ coverList m.pageWidth m.pageHeight
  · rw [if_pos hic]
  · rw [if_neg hic]
    have hge : ¬ ((i : Int) < m.pageWidth * m.pageHeight) := fun hlt =>
      hic (coverList_complete hpw hph i hlt)
    rw [hP] at hge
    have hiG : G.pages.length ≤ i := by omega
    have him : m.pages.length ≤ i := by omega
    rw [List.getD_eq_default _ _ hiG, List.getD_eq_default _ _ him]

/-- C2 witness: the round-trip theorem applied to the concrete 3x3 grid. -/
theorem c2_codec_roundtrip_witness :
    (NewGridOf 3 3).WF ∧ (NewGridOf 3 3).Size.X ≤ 32767 ∧
    (NewGridOf 3 3).Size.Y ≤ 32767 ∧
    ∃ bytes g', (NewGridOf 3 3).WriteTo = some bytes ∧
      ReadFrom bytes = some (some g', false) ∧
      g'.Size = (NewGridOf 3 3).Size ∧
      g'.pages.length = (NewGridOf 3 3).pages.length ∧
      ∀ i : Nat, (g'.pages.getD i emptyPage).tiles =
        ((NewGridOf 3 3).pages.getD i emptyPage).tiles :=
  ⟨by decide, by decide, by decide,
    c2_codec_roundtrip (NewGridOf 3 3) (by decide) (by decide) (by decide)⟩

lemma intRange_length (lo hi : Int) : (intRange lo hi).length = (hi - lo + 1).toNat := by
  unfold intRange
  rw [List.length_map, List.length_range]

lemma sum_map_const {α : Type} (l : List α) (c : Nat) :
    (l.map fun _ => c).sum = l.length * c := by
  induction l with
  | nil => simp
  | cons a t ih =>
    rw [List.map_cons, List.sum_cons, ih, List.length_cons]
    ring

lemma coverList_length (pw ph : Int) :
    (coverList pw ph).length = pw.toNat * ph.toNat := by
  have hinner : ∀ x : Int,
      ((intRange 0 (ph - 1)).map fun y => (x + pw * y).toNat).length = ph.toNat := by
    intro x
    rw [List.length_map, intRange_length]
    omega
  unfold coverList
  rw [List.length_flatMap]
  simp only [Function.comp_def]
  have hmap : ((intRange 0 (pw - 1)).map fun x =>
      ((intRange 0 (ph - 1)).map fun y => (x + pw * y).toNat).length) =
      (intRange 0 (pw - 1)).map fun _ => ph.toNat :=
    List.map_congr_left fun x _ => hinner x
  rw [hmap, sum_map_const, intRange_length]
  have : (pw - 1 - 0 + 1).toNat = pw.toNat := by omega
  rw [this]

lemma fillPages_no_err : ∀ (pis : List Nat) (g : Grid) (body : List Nat),
    36 * pis.length ≤ body.length →
    ∃ g', fillPages pis g body false = (g', false) ∧ g'.Size = g.Size := by
  intro pis
  induction pis with
  | nil =>
    intro g body _
    exact ⟨g, rfl, rfl⟩
  | cons pi rest ih =>
    intro g body hlen
    rw [List.length_cons] at hlen
    have hnot : ¬ (body.length < 36) := by omega
    have hstep : fillPages (pi :: rest) g body false =
        fillPages rest
          (g.updatePage pi fun p => { p with tiles := parsePage (body.take 36) })
          (body.drop 36) false := by
      conv_lhs => rw [fillPages]
      rw [if_neg (by simp), if_neg hnot]
    rw [hstep]
    obtain ⟨g', hfill, hsz⟩ := ih _ (body.drop 36) (by
      rw [List.length_drop]
      omega)
    exact ⟨g', hfill, hsz.trans rfl⟩

/-- C9 counterexample: a stream whose header decodes to `max = (3, 4)`, i.e.
dimensions `(4, 5)` that are not multiples of three, does NOT fail: `ReadFrom`
returns the truncated `4/3 x 5/3`-page grid (actual size 3x3) with no error. -/
theorem c9_readfrom_counterexample :
    ReadFrom (streamBytes 3 4 (List.replicate 36 0)) =
      some (some (NewGridOf 4 5), false) := by decide

/-- C9 amended: for every header `max = (mx, my)` with `mx, my ≥ 2` (in the
16-bit range) and a body long enough for the covered pages, decoding always
succeeds with no error — whether or not `mx + 1` and `my + 1` are multiples of
three — and the grid's size is the dimensions truncated down to multiples of
three (`(mx+1)/3*3 x (my+1)/3*3`). -/
theorem c9_readfrom_truncates (mx my : Int) (body : List Nat)
    (hmx1 : 2 ≤ mx) (hmx2 : mx ≤ 32766) (hmy1 : 2 ≤ my) (hmy2 : my ≤ 32766)
    (hbody : 36 * ((gdiv (mx + 1) 3).toNat * (gdiv (my + 1) 3).toNat) ≤ body.length) :
    ∃ g, ReadFrom (streamBytes mx my body) = some (some g, false) ∧
      g.Size = ⟨gdiv (mx + 1) 3 * 3, gdiv (my + 1) 3 * 3⟩ := by
  have hread := ReadFrom_streamBytes mx my body (by omega) hmx2 (by omega) hmy2
  set G := NewGridOf (mx + 1) (my + 1) with hG
  have hGWF : G.WF := by
    rw [hG]
    exact NewGridOf_WF _ _ (by omega) (by omega)
  have hGsX : G.Size.X = gdiv (mx + 1) 3 * 3 := rfl
  have hGsY : G.Size.Y = gdiv (my + 1) 3 * 3 := rfl
  have hdx : gdiv (mx + 1) 3 * 3 ≤ mx + 1 := by
    rw [gdiv_nonneg_eq _ _ (by omega) (by norm_num)]
    omega
  have hdy : gdiv (my + 1) 3 * 3 ≤ my + 1 := by
    rw [gdiv_nonneg_eq _ _ (by omega) (by norm_num)]
    omega
  have hcov := pagesWithin_cover G hGWF ⟨mx, my⟩
    (by show G.Size.X - 1 ≤ mx; rw [hGsX]; omega)
    (by show G.Size.Y - 1 ≤ my; rw [hGsY]; omega)
  rw [hcov, collectSome_map_some] at hread
  simp only [Option.map_some'] at hread
  have hlenb : 36 * (coverList G.pageWidth G.pageHeight).length ≤ body.length := by
    rw [coverList_length]
    exact hbody
  obtain ⟨g, hfill, hsz⟩ := fillPages_no_err (coverList G.pageWidth G.pageHeight)
    G body hlenb
  rw [hfill] at hread
  exact ⟨g, hread.trans rfl, hsz.trans rfl⟩

/-- C9 witness: the amended theorem applied to `max = (2, 2)` with a 36-byte
body. -/
theorem c9_readfrom_truncates_witness :
    (2 : Int) ≤ 2 ∧ (2 : Int) ≤ 32766 ∧
    36 * ((gdiv ((2 : Int) + 1) 3).toNat * (gdiv ((2 : Int) + 1) 3).toNat) ≤
      (List.replicate 36 0).length ∧
    ∃ g, ReadFrom (streamBytes 2 2 (List.replicate 36 0)) = some (some g, false) ∧
      g.Size = ⟨gdiv ((2 : Int) + 1) 3 * 3, gdiv ((2 : Int) + 1) 3 * 3⟩ :=
  ⟨by decide, by decide, by decide,
    c9_readfrom_truncates 2 2 (List.replicate 36 0) (by decide) (by decide)
      (by decide) (by decide) (by decide)⟩

-- ------------------- View.Resize subscriptions (claim C4) -------------------

/-- The pubsub registry restricted to a single view: the subscription count of
that view per page point, plus whether an `observers` entry exists for the
point (`LoadOrStore` creates one on the first subscribe, and `Unsubscribe` of
a missing entry returns false without touching anything). -/
structure PubSub where
  subs : Point → Nat
  known : Point → Bool

/-- The empty registry. -/
def emptyPubSub : PubSub := ⟨fun _ => 0, fun _ => false⟩

/-- `pubsub.Subscribe` for the single view: append the view to the point's
observer list (count + 1, creating the entry) and report `len > 0`, which
after an append is always true. -/
def PubSub.Subscribe (ps : PubSub) (pt : Point) : PubSub × Bool :=
  (⟨fun q => if q = pt then ps.subs q + 1 else ps.subs q,
    fun q => if q = pt then true else ps.known q⟩, true)

/-- `pubsub.Unsubscribe` for the single view: when the entry exists, remove
every copy of the view (count := 0) and report whether the remaining list is
empty — with a single view, always true; when the entry does not exist,
report false. -/
def PubSub.Unsubscribe (ps : PubSub) (pt : Point) : PubSub × Bool :=
  if ps.known pt then
    (⟨fun q => if q = pt then 0 else ps.subs q, ps.known⟩, true)
  else (ps, false)

/-- One invocation of the `pagesWithin` callback inside `View.Resize` (with a
nil tile callback): subscribe pages that entered the view, unsubscribe pages
that left it, toggling the observed flag when pubsub reports a change. -/
def resizeVisit (view prev : Rect) (st : Grid × PubSub) (pi : Nat) :
    Grid × PubSub :=
  let pg := st.1.pages.getD pi emptyPage
  let r := pg.Bounds
  if view.Intersects r && !(prev.Intersects r) then
    let res := st.2.Subscribe pg.point
    ((if res.2 then st.1.updatePage pi fun p => p.SetObserved true else st.1),
      res.1)
  else if !(view.Intersects r) && prev.Intersects r then
    let res := st.2.Unsubscribe pg.point
    ((if res.2 then st.1.updatePage pi fun p => p.SetObserved false else st.1),
      res.1)
  else st

/-- `View.Resize` (nil tile callback): after swapping the viewport from `prev`
to `view`, visit every page covered by a non-zero rectangle of
`view.Difference prev`. `none` models the nil-page dereference inside
`pagesWithin`. The visits change only flags, tiles and the registry — never a
page's point or the page count — so collecting the visited indices up-front is
faithful to the source's interleaved iteration. -/
def View.Resize (m : Grid) (ps : PubSub) (view prev : Rect) :
    Option (Grid × PubSub) :=
  (collectSome (((view.Difference prev).filter fun d => !d.IsZero).flatMap
      fun d => m.pagesWithin d.Min d.Max)).map fun pis =>
    pis.foldl (resizeVisit view prev) (m, ps)

/-- C4 counterexample: on a 9x9 grid whose page `(0,0)` is observed and
subscribed, resizing the view from `prev = [0,3)x[0,3)` to the disjoint
`view = [6,9)x[6,9)` visits only the pages of `view` (the difference of two
non-intersecting rectangles is just `view`), so page `(0,0)` — whose bounds
intersect `prev` but not `view` — keeps its subscription and its observed
flag, contradicting the claimed unsubscription and, after a return trip, the
claimed conservation of the subscription count. -/
theorem c4_resize_counterexample :
    ((View.Resize ((NewGridOf 9 9).updatePage 0 fun p => p.SetObserved true)
        (PubSub.Subscribe emptyPubSub ⟨0, 0⟩).1
        ⟨⟨6, 6⟩, ⟨9, 9⟩⟩ ⟨⟨0, 0⟩, ⟨3, 3⟩⟩).map fun st =>
      (st.2.subs ⟨0, 0⟩,
       (st.1.pages.getD 0 emptyPage).IsObserved,
       Rect.Intersects ⟨⟨0, 0⟩, ⟨3, 3⟩⟩ ((st.1.pages.getD 0 emptyPage).Bounds),
       Rect.Intersects ⟨⟨6, 6⟩, ⟨9, 9⟩⟩ ((st.1.pages.getD 0 emptyPage).Bounds)))
      = some (1, true, true, false) := by decide

lemma updatePage_length (g : Grid) (pj : Nat) (f : page → page) :
    (g.updatePage pj f).pages.length = g.pages.length := by
  unfold Grid.updatePage
  dsimp only
  rw [List.length_set]

lemma updatePage_Size (g : Grid) (pj : Nat) (f : page → page) :
    (g.updatePage pj f).Size = g.Size := rfl

lemma updatePage_getD_ne (g : Grid) {pj j : Nat} (f : page → page) (h : j ≠ pj) :
    (g.updatePage pj f).pages.getD j emptyPage = g.pages.getD j emptyPage := by
  unfold Grid.updatePage
  dsimp only
  exact getD_set_ne _ _ _ fun hh => h hh.symm

lemma updatePage_getD_eq (g : Grid) {pj : Nat} (f : page → page)
    (h : pj < g.pages.length) :
    (g.updatePage pj f).pages.getD pj emptyPage =
      f (g.pages.getD pj emptyPage) := by
  unfold Grid.updatePage
  dsimp only
  exact getD_set_eq_of_lt _ _ _ _ h

lemma SetObserved_point (p : page) (b : Bool) : (p.SetObserved b).point = p.point := rfl

lemma SetObserved_false_IsObserved (p : page) :
    (p.SetObserved false).IsObserved = false := by
  unfold page.SetObserved page.IsObserved andNot32
  dsimp only
  rw [if_neg (by simp)]
  have : p.flags &&& (4294967295 ^^^ 1) &&& 1 = 0 := by
    rw [Nat.and_assoc]
    norm_num
  rw [this]
  rfl

lemma foldl_preserve {S A : Type} (f : S → A → S) (R : S → Prop) :
    ∀ (l : List A) (s : S), (∀ a ∈ l, ∀ s', R s' → R (f s' a)) → R s →
      R (l.foldl f s) := by
  intro l
  induction l with
  | nil =>
    intro s _ hs
    exact hs
  | cons a t ih =>
    intro s h hs
    rw [List.foldl_cons]
    exact ih _ (fun b hb => h b (by simp [hb])) (h a (by simp) s hs)

lemma foldl_establish {S A : Type} (f : S → A → S) (P Q : S → Prop) (a0 : A) :
    ∀ (l : List A) (s : S),
      (∀ a ∈ l, ∀ s', Q s' → Q (f s' a)) →
      (∀ a ∈ l, ∀ s', Q s' → P s' → P (f s' a)) →
      (∀ s', Q s' → P (f s' a0)) →
      a0 ∈ l → Q s → P (l.foldl f s) := by
  intro l
  induction l with
  | nil =>
    intro s _ _ _ hmem _
    exact absurd hmem (List.not_mem_nil a0)
  | cons a t ih =>
    intro s hQ hP hest hmem hQs
    rw [List.foldl_cons]
    by_cases ha : a0 ∈ t
    · exact ih _ (fun b hb => hQ b (by simp [hb])) (fun b hb => hP b (by simp [hb]))
        hest ha (hQ a (by simp) s hQs)
    · have haa : a = a0 := by
        rcases List.mem_cons.mp hmem with h | h
        · exact h.symm
        · exact absurd h ha
      subst haa
      have hPQ : (fun s' => P s' ∧ Q s') (f s a) := ⟨hest s hQs, hQ a (by simp) s hQs⟩
      exact (foldl_preserve f (fun s' => P s' ∧ Q s') t _
        (fun b hb s' hs' => ⟨hP b (by simp [hb]) s' hs'.2 hs'.1,
          hQ b (by simp [hb]) s' hs'.2⟩) hPQ).1

lemma collectSome_mem {α : Type} :
    ∀ (l : List (Option α)) (l' : List α), collectSome l = some l' →
      ∀ a, some a ∈ l → a ∈ l' := by
  intro l
  induction l with
  | nil =>
    intro l' _ a ha
    exact absurd ha (List.not_mem_nil _)
  | cons o t ih =>
    intro l' hl a ha
    match o, hl with
    | some b, hl =>
      have hmap : (collectSome t).map (b :: ·) = some l' := hl
      match ht : collectSome t with
      | some t' =>
        rw [ht] at hmap
        have hl' : l' = b :: t' := by
          injection hmap with h
          exact h.symm
        subst hl'
        rcases List.mem_cons.mp ha with h | h
        · injection h with h
          simp [h]
        · simp [ih t' ht a h]
      | none =>
        rw [ht] at hmap
        exact absurd hmap (by simp)

lemma difference_covers (a b : Rect) (p : Point)
    (hint : a.Intersects b = true)
    (hncov : (b.Contains a.Min && b.Contains a.Max) = false)
    (hb : b.Contains p = true) (hna : a.Contains p = false) :
    ∃ r ∈ a.Difference b, r.IsZero = false ∧ r.Contains p = true := by
  unfold Rect.Difference
  rw [if_neg (by simp [hncov]), if_neg (by simp [hint])]
  dsimp only
  simp only [List.mem_cons, List.not_mem_nil, or_false, exists_eq_or_imp,
    exists_eq_left, zeroIfFlat_sem]
  have hna' : ¬ (a.Contains p = true) := by simp [hna]
  simp only [Rect.contains_iff, Rect.intersects_iff] at hint hb hna' ⊢
  omega

lemma difference_min_nonneg (a b : Rect)
    (hax : 0 ≤ a.Min.X) (hay : 0 ≤ a.Min.Y)
    (hbx : 0 ≤ b.Min.X) (hby : 0 ≤ b.Min.Y)
    (hint : a.Intersects b = true) :
    ∀ d ∈ a.Difference b, 0 ≤ d.Min.X ∧ 0 ≤ d.Min.Y := by
  intro d hd
  simp only [Rect.intersects_iff] at hint
  unfold Rect.Difference at hd
  by_cases h1 : (b.Contains a.Min && b.Contains a.Max) = true
  · rw [if_pos h1] at hd
    simp only [List.mem_cons, List.not_mem_nil, or_false] at hd
    rcases hd with rfl | rfl | rfl | rfl <;> exact ⟨le_refl 0, le_refl 0⟩
  · rw [if_neg h1] at hd
    by_cases h2 : (!a.Intersects b) = true
    · rw [if_pos h2] at hd
      simp only [List.mem_cons, List.not_mem_nil, or_false] at hd
      rcases hd with rfl | rfl | rfl | rfl
      · exact ⟨hax, hay⟩
      all_goals exact ⟨le_refl 0, le_refl 0⟩
    · rw [if_neg h2] at hd
      dsimp only at hd
      simp only [List.mem_cons, List.not_mem_nil, or_false] at hd
      have hz : (0:Int) ≤ (zeroRect).Min.X ∧ (0:Int) ≤ (zeroRect).Min.Y :=
        ⟨le_refl 0, le_refl 0⟩
      rcases hd with rfl | rfl | rfl | rfl <;>
        (unfold zeroIfFlat; split) <;>
        first
          | exact hz
          | (constructor <;> (dsimp only; omega))

lemma pagesWithin_mem_of_point (m : Grid) (hWF : m.WF) (nw se p : Point)
    (hnwx : 0 ≤ nw.X) (hnwy : 0 ≤ nw.Y)
    (hp1 : nw.X ≤ p.X) (hp2 : p.X ≤ se.X) (hp3 : nw.Y ≤ p.Y) (hp4 : p.Y ≤ se.Y)
    (hb2 : p.X < m.Size.X) (hb4 : p.Y < m.Size.Y) :
    some ((gdiv p.X 3 + m.pageWidth * gdiv p.Y 3).toNat) ∈ m.pagesWithin nw se := by
  obtain ⟨hpw, hph, hsize, hlen⟩ := WF_parts m hWF
  have hX : m.Size.X = m.pageWidth * 3 := by rw [hsize]
  have hY : m.Size.Y = m.pageHeight * 3 := by rw [hsize]
  have hpx : gdiv p.X 3 = p.X / 3 := gdiv_nonneg_eq _ _ (by omega) (by norm_num)
  have hpy : gdiv p.Y 3 = p.Y / 3 := gdiv_nonneg_eq _ _ (by omega) (by norm_num)
  have hnx : gdiv nw.X 3 = nw.X / 3 := gdiv_nonneg_eq _ _ hnwx (by norm_num)
  have hny : gdiv nw.Y 3 = nw.Y / 3 := gdiv_nonneg_eq _ _ hnwy (by norm_num)
  unfold Grid.pagesWithin
  refine List.mem_flatMap.mpr ⟨gdiv p.X 3, ?_, ?_⟩
  · by_cases hw : Point.WithinSize se m.Size = true
    · rw [if_pos hw]
      simp only [Point.WithinSize, Bool.and_eq_true, decide_eq_true_eq] at hw
      have hsx : gdiv se.X 3 = se.X / 3 := gdiv_nonneg_eq _ _ (by omega) (by norm_num)
      refine mem_intRange_intro ?_ ?_ <;> rw [hpx]
      · rw [hnx]
        omega
      · rw [hsx]
        omega
    · rw [if_neg hw]
      dsimp only
      have hsx : gdiv (m.Size.X - 1) 3 = (m.Size.X - 1) / 3 :=
        gdiv_nonneg_eq _ _ (by omega) (by norm_num)
      refine mem_intRange_intro ?_ ?_ <;> rw [hpx]
      · rw [hnx]
        omega
      · rw [hsx]
        omega
  · refine List.mem_map.mpr ⟨gdiv p.Y 3, ?_, ?_⟩
    · by_cases hw : Point.WithinSize se m.Size = true
      · rw [if_pos hw]
        simp only [Point.WithinSize, Bool.and_eq_true, decide_eq_true_eq] at hw
        have hsy : gdiv se.Y 3 = se.Y / 3 := gdiv_nonneg_eq _ _ (by omega) (by norm_num)
        refine mem_intRange_intro ?_ ?_ <;> rw [hpy]
        · rw [hny]
          omega
        · rw [hsy]
          omega
      · rw [if_neg hw]
        dsimp only
        have hsy : gdiv (m.Size.Y - 1) 3 = (m.Size.Y - 1) / 3 :=
          gdiv_nonneg_eq _ _ (by omega) (by norm_num)
        refine mem_intRange_intro ?_ ?_ <;> rw [hpy]
        · rw [hny]
          omega
        · rw [hsy]
          omega
    · have hxb : 0 ≤ gdiv p.X 3 ∧ gdiv p.X 3 < m.pageWidth := by
        rw [hpx]
        omega
      have hyb : 0 ≤ gdiv p.Y 3 ∧ gdiv p.Y 3 < m.pageHeight := by
        rw [hpy]
        omega
      obtain ⟨hi1, hi2⟩ := page_index_bounds hpw hph hxb.1 hxb.2 hyb.1 hyb.2
      unfold Grid.pageAt
      rw [if_pos ⟨hi1, by omega⟩]

/-- Fold invariant for the `Resize` visit loop: page structure (count and
points) is untouched, and the registry entry of the tracked point `pt` keeps
its existence bit while its count can only be cleared. -/
def resizeInv (m : Grid) (ps : PubSub) (pt : Point) (st : Grid × PubSub) : Prop :=
  st.1.pages.length = m.pages.length ∧
  (∀ j : Nat, (st.1.pages.getD j emptyPage).point = (m.pages.getD j emptyPage).point) ∧
  st.2.known pt = ps.known pt ∧
  (st.2.subs pt = ps.subs pt ∨ st.2.subs pt = 0)

/-- Target state for the tracked page `pi` with point `pt`: no subscriptions
remain and (when the registry entry existed) the observed flag is cleared. -/
def resizeGoal (ps : PubSub) (pt : Point) (pi : Nat) (st : Grid × PubSub) : Prop :=
  st.2.subs pt = 0 ∧
  (ps.known pt = true → (st.1.pages.getD pi emptyPage).IsObserved = false)

lemma resizeVisit_preserves_inv (view prev : Rect) (m : Grid) (ps : PubSub)
    (pt : Point)
    (hbv : view.Intersects (⟨pt, At (pt.X + 3) (pt.Y + 3)⟩ : Rect) = false)
    (pj : Nat) (st : Grid × PubSub) (hpj : pj < st.1.pages.length)
    (hQ : resizeInv m ps pt st) : resizeInv m ps pt (resizeVisit view prev st pj) := by
  obtain ⟨hlen, hpts, hknown, hsubs⟩ := hQ
  unfold resizeVisit
  dsimp only
  by_cases h1 : (view.Intersects (st.1.pages.getD pj emptyPage).Bounds &&
      !(prev.Intersects (st.1.pages.getD pj emptyPage).Bounds)) = true
  · rw [if_pos h1]
    have hptne : (st.1.pages.getD pj emptyPage).point ≠ pt := by
      intro he
      have hbb : (st.1.pages.getD pj emptyPage).Bounds =
          (⟨pt, At (pt.X + 3) (pt.Y + 3)⟩ : Rect) := by
        unfold page.Bounds
        rw [he]
      rw [hbb, hbv] at h1
      simp at h1
    refine ⟨?_, ?_, ?_, ?_⟩
    · show (st.1.updatePage pj fun p => p.SetObserved true).pages.length =
        m.pages.length
      rw [updatePage_length]
      exact hlen
    · intro j
      show ((st.1.updatePage pj fun p => p.SetObserved true).pages.getD j
        emptyPage).point = (m.pages.getD j emptyPage).point
      by_cases hj : j = pj
      · subst hj
        rw [updatePage_getD_eq _ _ hpj, SetObserved_point]
        exact hpts j
      · rw [updatePage_getD_ne _ _ hj]
        exact hpts j
    · show (if pt = (st.1.pages.getD pj emptyPage).point then true
        else st.2.known pt) = ps.known pt
      rw [if_neg (fun h => hptne h.symm)]
      exact hknown
    · show (if pt = (st.1.pages.getD pj emptyPage).point then st.2.subs pt + 1
        else st.2.subs pt) = ps.subs pt ∨
        (if pt = (st.1.pages.getD pj emptyPage).point then st.2.subs pt + 1
        else st.2.subs pt) = 0
      rw [if_neg (fun h => hptne h.symm)]
      exact hsubs
  · rw [if_neg h1]
    by_cases h2 : (!(view.Intersects (st.1.pages.getD pj emptyPage).Bounds) &&
        prev.Intersects (st.1.pages.getD pj emptyPage).Bounds) = true
    · rw [if_pos h2]
      dsimp only [PubSub.Unsubscribe]
      by_cases hk : st.2.known (st.1.pages.getD pj emptyPage).point = true
      · rw [if_pos hk]
        refine ⟨?_, ?_, ?_, ?_⟩
        · show (st.1.updatePage pj fun p => p.SetObserved false).pages.length =
            m.pages.length
          rw [updatePage_length]
          exact hlen
        · intro j
          show ((st.1.updatePage pj fun p => p.SetObserved false).pages.getD j
            emptyPage).point = (m.pages.getD j emptyPage).point
          by_cases hj : j = pj
          · subst hj
            rw [updatePage_getD_eq _ _ hpj, SetObserved_point]
            exact hpts j
          · rw [updatePage_getD_ne _ _ hj]
            exact hpts j
        · show st.2.known pt = ps.known pt
          exact hknown
        · show (if pt = (st.1.pages.getD pj emptyPage).point then 0
            else st.2.subs pt) = ps.subs pt ∨
            (if pt = (st.1.pages.getD pj emptyPage).point then 0
            else st.2.subs pt) = 0
          by_cases hq : pt = (st.1.pages.getD pj emptyPage).point
          · rw [if_pos hq]
            right
            rfl
          · rw [if_neg hq]
            exact hsubs
      · rw [if_neg hk]
        exact ⟨hlen, hpts, hknown, hsubs⟩
    · rw [if_neg h2]
      exact ⟨hlen, hpts, hknown, hsubs⟩

lemma resizeVisit_preserves_goal (view prev : Rect) (m : Grid) (ps : PubSub)
    (pt : Point) (pi : Nat) (hpt : (m.pages.getD pi emptyPage).point = pt)
    (hbv : view.Intersects (⟨pt, At (pt.X + 3) (pt.Y + 3)⟩ : Rect) = false)
    (pj : Nat) (st : Grid × PubSub) (hpj : pj < st.1.pages.length)
    (hQ : resizeInv m ps pt st) (hP : resizeGoal ps pt pi st) :
    resizeGoal ps pt pi (resizeVisit view prev st pj) := by
  obtain ⟨hlen, hpts, hknown, hsubs⟩ := hQ
  obtain ⟨hz, hflag⟩ := hP
  unfold resizeVisit
  dsimp only
  by_cases h1 : (view.Intersects (st.1.pages.getD pj emptyPage).Bounds &&
      !(prev.Intersects (st.1.pages.getD pj emptyPage).Bounds)) = true
  · rw [if_pos h1]
    have hptne : (st.1.pages.getD pj emptyPage).point ≠ pt := by
      intro he
      have hbb : (st.1.pages.getD pj emptyPage).Bounds =
          (⟨pt, At (pt.X + 3) (pt.Y + 3)⟩ : Rect) := by
        unfold page.Bounds
        rw [he]
      rw [hbb, hbv] at h1
      simp at h1
    have hne : pj ≠ pi := fun he => hptne (by rw [he, hpts pi, hpt])
    refine ⟨?_, fun hc => ?_⟩
    · show (if pt = (st.1.pages.getD pj emptyPage).point then st.2.subs pt + 1
        else st.2.subs pt) = 0
      rw [if_neg (fun h => hptne h.symm)]
      exact hz
    · show (((st.1.updatePage pj fun p => p.SetObserved true).pages.getD pi
        emptyPage)).IsObserved = false
      rw [updatePage_getD_ne _ _ (fun h => hne h.symm)]
      exact hflag hc
  · rw [if_neg h1]
    by_cases h2 : (!(view.Intersects (st.1.pages.getD pj emptyPage).Bounds) &&
        prev.Intersects (st.1.pages.getD pj emptyPage).Bounds) = true
    · rw [if_pos h2]
      dsimp only [PubSub.Unsubscribe]
      by_cases hk : st.2.known (st.1.pages.getD pj emptyPage).point = true
      · rw [if_pos hk]
        refine ⟨?_, fun hc => ?_⟩
        · show (if pt = (st.1.pages.getD pj emptyPage).point then 0
            else st.2.subs pt) = 0
          by_cases hq : pt = (st.1.pages.getD pj emptyPage).point
          · rw [if_pos hq]
          · rw [if_neg hq]
            exact hz
        · show (((st.1.updatePage pj fun p => p.SetObserved false).pages.getD pi
            emptyPage)).IsObserved = false
          by_cases hj : pj = pi
          · subst hj
            rw [updatePage_getD_eq _ _ hpj, SetObserved_false_IsObserved]
          · rw [updatePage_getD_ne _ _ (fun h => hj h.symm)]
            exact hflag hc
      · rw [if_neg hk]
        exact ⟨hz, hflag⟩
    · rw [if_neg h2]
      exact ⟨hz, hflag⟩

lemma resizeVisit_establish (view prev : Rect) (m : Grid) (ps : PubSub)
    (pt : Point) (pi : Nat) (hpt : (m.pages.getD pi emptyPage).point = pt)
    (hbv : view.Intersects (⟨pt, At (pt.X + 3) (pt.Y + 3)⟩ : Rect) = false)
    (hbp : prev.Intersects (⟨pt, At (pt.X + 3) (pt.Y + 3)⟩ : Rect) = true)
    (hkn : ps.subs pt ≠ 0 → ps.known pt = true)
    (st : Grid × PubSub) (hpj : pi < st.1.pages.length)
    (hQ : resizeInv m ps pt st) :
    resizeGoal ps pt pi (resizeVisit view prev st pi) := by
  obtain ⟨hlen, hpts, hknown, hsubs⟩ := hQ
  have hpg : (st.1.pages.getD pi emptyPage).point = pt := (hpts pi).trans hpt
  have hbb : (st.1.pages.getD pi emptyPage).Bounds =
      (⟨pt, At (pt.X + 3) (pt.Y + 3)⟩ : Rect) := by
    unfold page.Bounds
    rw [hpg]
  unfold resizeVisit
  dsimp only
  rw [hbb, hbv, hbp, hpg]
  rw [if_neg (by simp), if_pos (by simp)]
  dsimp only [PubSub.Unsubscribe]
  by_cases hk : st.2.known pt = true
  · rw [if_pos hk]
    refine ⟨?_, fun _ => ?_⟩
    · show (if pt = pt then 0 else st.2.subs pt) = 0
      rw [if_pos rfl]
    · show (((st.1.updatePage pi fun p => p.SetObserved false).pages.getD pi
        emptyPage)).IsObserved = false
      rw [updatePage_getD_eq _ _ hpj, SetObserved_false_IsObserved]
  · rw [if_neg hk]
    have hkf : st.2.known pt = false := by
      revert hk
      cases st.2.known pt <;> simp
    have hpsf : ps.known pt = false := hknown.symm.trans hkf
    refine ⟨?_, fun hc => ?_⟩
    · show st.2.subs pt = 0
      rcases hsubs with h | h
      · rw [h]
        by_cases hs : ps.subs pt = 0
        · exact hs
        · rw [hkn hs] at hpsf
          exact absurd hpsf (by simp)
      · exact h
    · rw [hc] at hpsf
      exact absurd hpsf (by simp)

/-- C4 amended: provided the new viewport intersects the previous one and the
previous one does not contain both corners of the new one (so that the
difference rectangles of the resize cover everything that was left), and the
viewports sit at non-negative coordinates with a non-empty previous viewport,
`Resize` unsubscribes every page whose bounds intersect the previous viewport
but not the new one, zeroing its subscription count and — when the registry
entry existed — clearing its observed flag. Without the overlap hypothesis
this fails (see the disjoint-resize counterexample), so a round trip of
`MoveTo` steps preserves the subscription set only when consecutive viewports
keep overlapping this way. -/
theorem c4_resize_unsubscribes (m : Grid) (hWF : m.WF) (ps : PubSub)
    (view prev : Rect)
    (hvx : 0 ≤ view.Min.X) (hvy : 0 ≤ view.Min.Y)
    (hpvx : 0 ≤ prev.Min.X) (hpvy : 0 ≤ prev.Min.Y)
    (hpnx : prev.Min.X < prev.Max.X) (hpny : prev.Min.Y < prev.Max.Y)
    (hint : view.Intersects prev = true)
    (hncov : (prev.Contains view.Min && prev.Contains view.Max) = false)
    (pi : Nat) (hpi : pi < m.pages.length)
    (hbp : prev.Intersects ((m.pages.getD pi emptyPage).Bounds) = true)
    (hbv : view.Intersects ((m.pages.getD pi emptyPage).Bounds) = false)
    (hkn : ps.subs (m.pages.getD pi emptyPage).point ≠ 0 →
      ps.known (m.pages.getD pi emptyPage).point = true) :
    ∃ st, View.Resize m ps view prev = some st ∧
      st.2.subs (m.pages.getD pi emptyPage).point = 0 ∧
      (ps.known (m.pages.getD pi emptyPage).point = true →
        (st.1.pages.getD pi emptyPage).IsObserved = false) := by
  obtain ⟨hpw, hph, hsize, hlenZ⟩ := WF_parts m hWF
  obtain ⟨-, -, -, -, hlayout, -, -⟩ := id hWF
  set pt := (m.pages.getD pi emptyPage).point with hptdef
  have hbb : (m.pages.getD pi emptyPage).Bounds =
      (⟨pt, At (pt.X + 3) (pt.Y + 3)⟩ : Rect) := rfl
  rw [hbb] at hbp hbv
  have hX : m.Size.X = m.pageWidth * 3 := by rw [hsize]
  have hY : m.Size.Y = m.pageHeight * 3 := by rw [hsize]
  have hpwn : (m.pageWidth.toNat : Int) = m.pageWidth := Int.toNat_of_nonneg (by omega)
  have hphn : (m.pageHeight.toNat : Int) = m.pageHeight := Int.toNat_of_nonneg (by omega)
  obtain ⟨px, hpxe⟩ : ∃ n, pi % m.pageWidth.toNat = n := ⟨_, rfl⟩
  obtain ⟨py, hpye⟩ : ∃ n, pi / m.pageWidth.toNat = n := ⟨_, rfl⟩
  have hmodlt : px < m.pageWidth.toNat := by
    rw [← hpxe]
    exact Nat.mod_lt _ (by omega)
  have hdivlt : py < m.pageHeight.toNat := by
    rw [← hpye]
    rw [Nat.div_lt_iff_lt_mul (by omega)]
    obtain ⟨P, hP⟩ : ∃ P : Int, m.pageWidth * m.pageHeight = P := ⟨_, rfl⟩
    have hc : ((m.pageHeight.toNat * m.pageWidth.toNat : Nat) : Int) = P := by
      rw [Nat.cast_mul, hphn, hpwn, ← hP]
      ring
    rw [hP] at hlenZ
    omega
  have hdecomp : px + m.pageWidth.toNat * py = pi := by
    rw [← hpxe, ← hpye]
    exact Nat.mod_add_div pi _
  have hlay := hlayout pi hpi
  rw [hpxe, hpye, ← hptdef] at hlay
  have hptX : pt.X = (px : Int) * 3 := by rw [hlay]
  have hptY : pt.Y = (py : Int) * 3 := by rw [hlay]
  have hptXle : pt.X + 3 ≤ m.Size.X := by
    rw [hptX, hX]
    omega
  have hptYle : pt.Y + 3 ≤ m.Size.Y := by
    rw [hptY, hY]
    omega
  have hpt0X : 0 ≤ pt.X := by
    rw [hptX]
    omega
  have hpt0Y : 0 ≤ pt.Y := by
    rw [hptY]
    omega
  have hbpI := hbp
  simp only [Rect.intersects_iff] at hbpI
  have hbvI : ¬ (view.Intersects (⟨pt, At (pt.X + 3) (pt.Y + 3)⟩ : Rect) = true) := by
    rw [hbv]
    simp
  simp only [Rect.intersects_iff] at hbvI
  dsimp only [At] at hbpI hbvI
  have hpb : prev.Contains ⟨max prev.Min.X pt.X, max prev.Min.Y pt.Y⟩ = true := by
    simp only [Rect.contains_iff]
    omega
  have hpv : view.Contains ⟨max prev.Min.X pt.X, max prev.Min.Y pt.Y⟩ = false := by
    cases hc : view.Contains ⟨max prev.Min.X pt.X, max prev.Min.Y pt.Y⟩
    · rfl
    · exfalso
      simp only [Rect.contains_iff] at hc
      apply hbvI
      omega
  obtain ⟨d, hd, hdnz, hdc⟩ := difference_covers view prev
    ⟨max prev.Min.X pt.X, max prev.Min.Y pt.Y⟩ hint hncov hpb hpv
  obtain ⟨hd0x, hd0y⟩ := difference_min_nonneg view prev hvx hvy hpvx hpvy hint d hd
  simp only [Rect.contains_iff] at hdc
  have hmem := pagesWithin_mem_of_point m hWF d.Min d.Max
    ⟨max prev.Min.X pt.X, max prev.Min.Y pt.Y⟩ hd0x hd0y
    hdc.1 (by dsimp only; omega) hdc.2.2.1 (by dsimp only; omega)
    (by dsimp only; omega) (by dsimp only; omega)
  have hgx : gdiv (Point.X ⟨max prev.Min.X pt.X, max prev.Min.Y pt.Y⟩) 3 = (px : Int) := by
    dsimp only
    rw [gdiv_nonneg_eq _ _ (by omega) (by norm_num)]
    rw [hptX] at hbpI ⊢
    omega
  have hgy : gdiv (Point.Y ⟨max prev.Min.X pt.X, max prev.Min.Y pt.Y⟩) 3 = (py : Int) := by
    dsimp only
    rw [gdiv_nonneg_eq _ _ (by omega) (by norm_num)]
    rw [hptY] at hbpI ⊢
    omega
  rw [hgx, hgy] at hmem
  have hpieq : ((px : Int) + m.pageWidth * (py : Int)).toNat = pi := by
    rw [← hpwn, ← Nat.cast_mul, ← Nat.cast_add, Int.toNat_natCast]
    exact hdecomp
  rw [hpieq] at hmem
  set L := ((view.Difference prev).filter fun d => !d.IsZero).flatMap
    (fun d => m.pagesWithin d.Min d.Max) with hL
  have hall : ∀ o ∈ L, o ≠ none := by
    intro o ho
    rw [hL] at ho
    obtain ⟨d', hd', ho2⟩ := List.mem_flatMap.mp ho
    have hd'' := (List.mem_filter.mp hd').1
    obtain ⟨hd0x', hd0y'⟩ := difference_min_nonneg view prev hvx hvy hpvx hpvy hint d' hd''
    obtain ⟨x, y, _, _, _, _, rfl⟩ :=
      pagesWithin_mem m hWF d'.Min d'.Max hd0x' hd0y' o ho2
    simp
  obtain ⟨pis, hpis, hback⟩ := collectSome_of_all_some L hall
  have hpimem : pi ∈ pis := by
    refine collectSome_mem L pis hpis pi ?_
    rw [hL]
    exact List.mem_flatMap.mpr
      ⟨d, List.mem_filter.mpr ⟨hd, by rw [hdnz]; rfl⟩, hmem⟩
  have hmlen : ∀ pj ∈ pis, pj < m.pages.length := by
    intro pj hpj
    have hsome := hback pj hpj
    rw [hL] at hsome
    obtain ⟨d', hd', ho2⟩ := List.mem_flatMap.mp hsome
    have hd'' := (List.mem_filter.mp hd').1
    obtain ⟨hd0x', hd0y'⟩ := difference_min_nonneg view prev hvx hvy hpvx hpvy hint d' hd''
    obtain ⟨x, y, hx0, hx1, hy0, hy1, heq⟩ :=
      pagesWithin_mem m hWF d'.Min d'.Max hd0x' hd0y' _ ho2
    have hpj2 : pj = (x + m.pageWidth * y).toNat := by injection heq
    obtain ⟨h1, h2⟩ := page_index_bounds hpw hph hx0 hx1 hy0 hy1
    rw [hpj2]
    obtain ⟨P, hP⟩ : ∃ P : Int, m.pageWidth * m.pageHeight = P := ⟨_, rfl⟩
    rw [hP] at h2 hlenZ
    omega
  refine ⟨pis.foldl (resizeVisit view prev) (m, ps), ?_, ?_⟩
  · unfold View.Resize
    rw [← hL, hpis]
    rfl
  · exact foldl_establish (resizeVisit view prev) (resizeGoal ps pt pi)
      (resizeInv m ps pt) pi pis (m, ps)
      (fun a ha s' hs' => resizeVisit_preserves_inv view prev m ps pt hbv a s'
        (by rw [hs'.1]; exact hmlen a ha) hs')
      (fun a ha s' hs' hp' => resizeVisit_preserves_goal view prev m ps pt pi
        hptdef.symm hbv a s' (by rw [hs'.1]; exact hmlen a ha) hs' hp')
      (fun s' hs' => resizeVisit_establish view prev m ps pt pi hptdef.symm
        hbv hbp hkn s' (by rw [hs'.1]; exact hpi) hs')
      hpimem ⟨rfl, fun j => rfl, rfl, Or.inl rfl⟩

/-- C4 witness: the amended theorem applied to a 9x9 grid, the overlapping
resize from `[0,6)x[0,6)` to `[3,9)x[3,9)`, and page 0 (bounds `[0,3)x[0,3)`),
which is subscribed beforehand and unsubscribed by the call. -/
theorem c4_resize_unsubscribes_witness :
    (NewGridOf 9 9).WF ∧
    Rect.Intersects ⟨⟨3, 3⟩, ⟨9, 9⟩⟩ ⟨⟨0, 0⟩, ⟨6, 6⟩⟩ = true ∧
    (Rect.Contains ⟨⟨0, 0⟩, ⟨6, 6⟩⟩ (⟨3, 3⟩ : Point) &&
      Rect.Contains ⟨⟨0, 0⟩, ⟨6, 6⟩⟩ (⟨9, 9⟩ : Point)) = false ∧
    Rect.Intersects ⟨⟨0, 0⟩, ⟨6, 6⟩⟩ (((NewGridOf 9 9).pages.getD 0 emptyPage).Bounds) = true ∧
    Rect.Intersects ⟨⟨3, 3⟩, ⟨9, 9⟩⟩ (((NewGridOf 9 9).pages.getD 0 emptyPage).Bounds) = false ∧
    ∃ st, View.Resize (NewGridOf 9 9) (PubSub.Subscribe emptyPubSub ⟨0, 0⟩).1
        ⟨⟨3, 3⟩, ⟨9, 9⟩⟩ ⟨⟨0, 0⟩, ⟨6, 6⟩⟩ = some st ∧
      st.2.subs (((NewGridOf 9 9).pages.getD 0 emptyPage).point) = 0 ∧
      ((PubSub.Subscribe emptyPubSub ⟨0, 0⟩).1.known
          (((NewGridOf 9 9).pages.getD 0 emptyPage).point) = true →
        (st.1.pages.getD 0 emptyPage).IsObserved = false) :=
  ⟨by decide, by decide, by decide, by decide, by decide,
    c4_resize_unsubscribes (NewGridOf 9 9) (by decide)
      (PubSub.Subscribe emptyPubSub ⟨0, 0⟩).1 ⟨⟨3, 3⟩, ⟨9, 9⟩⟩ ⟨⟨0, 0⟩, ⟨6, 6⟩⟩
      (by decide) (by decide) (by decide) (by decide) (by decide) (by decide)
      (by decide) (by decide) 0 (by decide) (by decide) (by decide) (by decide)⟩

/-- C10 witness: the no-fault theorem applied to a 9x9 grid with the box
`(0,0)..(5,5)`. -/
theorem c10_within_no_fault_witness :
    (NewGridOf 9 9).WF ∧ (0 : Int) ≤ (At 0 0).X ∧ (0 : Int) ≤ (At 0 0).Y ∧
    ∃ l, (NewGridOf 9 9).Within (At 0 0) (At 5 5) = some l ∧
      ∀ pt ∈ l, (0 ≤ pt.1.X ∧ pt.1.X < (NewGridOf 9 9).Size.X ∧
        0 ≤ pt.1.Y ∧ pt.1.Y < (NewGridOf 9 9).Size.Y) ∧
        pt.1.Within (At 0 0) (At 5 5) = true :=
  ⟨by decide, by decide, by decide,
    c10_within_no_fault (NewGridOf 9 9) (by decide) (At 0 0) (At 5 5)
      (by decide) (by decide)⟩
